import Mathlib

/-!
Verification development for the simulation and instance-bookkeeping core of
the Gravinyon arcade game (src/lib.rs).  The game state is embedded shallowly:

* f32 values are embedded as exact rationals (ℚ); machine rounding is not
  modelled, so arithmetic identities hold exactly.
* Transcendental f32 operations (cos, sin, atan2, the inverse-square homing
  force and vector normalization, which need sqrt) are abstracted as an
  explicit `Oracle` of rational-valued functions, threaded through every
  function that the source computes them in.  No claim depends on their
  values.
* `rand::thread_rng` draws are abstracted as a `supply : ℕ → ObstacleParams`
  argument giving the randomized fields of each obstacle spawned during one
  event.
* Rust panics (unwrap on a missing table entry, a non-Ship at index 0, the
  variant mismatch in the damage-application arm) are modelled by `Option`:
  `none` is an abort.
* Collision in the source is `distance(p1, p2) < scale1 + scale2` on f32.
  It is embedded square-free as `0 ≤ s ∧ dist2 < s ^ 2` so that it stays
  decidable/executable; the C1 theorem proves this form equivalent to the
  real-valued `Real.sqrt dist2 < s` comparison, with no hypotheses.
-/

namespace Gravinyon

/-- 2D vector over exact rationals; embeds the program's f32 pairs
(cgmath `Point2<f32>` / `Vector2<f32>`). -/
abbrev Vec2 := ℚ × ℚ

/-- Componentwise vector addition (`+=` on cgmath vectors). -/
def addv (a b : Vec2) : Vec2 := (a.1 + b.1, a.2 + b.2)

/-- Componentwise vector subtraction. -/
def subv (a b : Vec2) : Vec2 := (a.1 - b.1, a.2 - b.2)

/-- Scalar multiplication of a vector. -/
def smul (k : ℚ) (a : Vec2) : Vec2 := (k * a.1, k * a.2)

/-- Squared Euclidean distance between two points. -/
def dist2 (a b : Vec2) : ℚ := (a.1 - b.1) ^ 2 + (a.2 - b.2) ^ 2

/-- The exact rational value of the f32 constant `std::f32::consts::TAU`
(bit pattern 0x40C90FDB). -/
def TAU : ℚ := 13176795 / 2097152

/-- The three mesh classes (`enum WhichMesh` in the source). -/
inductive WhichMesh
  | Obstacle
  | Shot
  | Ship
deriving DecidableEq

/-- Handle into the instance table: mesh class plus slot index
(`struct InstanceID`). -/
structure InstanceID where
  mesh : WhichMesh
  instance_index : ℕ
deriving DecidableEq

/-- GPU instance record used with the object shader
(`struct ObjectInstancePod`).  All three mesh classes of the running game
use this record shape (`MeshInstanceVec::Object`); the `Shape` variant of
`MeshInstanceVec` is never constructed for the per-mesh tables, so it is
not modelled. -/
structure ObjectInstancePod where
  position : Vec2
  angle : ℚ
  scale : ℚ
  shade_sensitivity : ℚ
deriving DecidableEq

/-- The all-zero record (`bytemuck::Zeroable::zeroed`): its zero scale makes
all geometry degenerate and invisible. -/
def ObjectInstancePod.zeroed : ObjectInstancePod :=
  { position := (0, 0), angle := 0, scale := 0, shade_sensitivity := 0 }

/-- Game entity (`enum Object` in the source).  `life` is a Rust u32,
embedded as ℕ (its only arithmetic is `saturating_sub`, which is exactly
truncated ℕ subtraction). -/
inductive Object
  | Ship (position : Vec2) (motion : Vec2) (instance_id : InstanceID)
  | Shot (position : Vec2) (angle : ℚ) (instance_id : InstanceID)
  | Obstacle (position : Vec2) (motion : Vec2) (angle : ℚ) (angle_rotation : ℚ)
      (scale : ℚ) (life : ℕ) (instance_id : InstanceID)
deriving DecidableEq

/-- `Object::is_ship`. -/
def Object.is_ship : Object → Bool
  | .Ship _ _ _ => true
  | _ => false

/-- `Object::is_shot`. -/
def Object.is_shot : Object → Bool
  | .Shot _ _ _ => true
  | _ => false

/-- `Object::is_obstacle`. -/
def Object.is_obstacle : Object → Bool
  | .Obstacle _ _ _ _ _ _ _ => true
  | _ => false

/-- `Object::position`. -/
def Object.position : Object → Vec2
  | .Ship position _ _ => position
  | .Shot position _ _ => position
  | .Obstacle position _ _ _ _ _ _ => position

/-- `Object::SHIP_SCALE`. -/
def Object.SHIP_SCALE : ℚ := 0.02

/-- `Object::scale`: fixed 0.02 for the Ship, fixed 0.01 for a Shot, an
Obstacle's own scale field. -/
def Object.scale : Object → ℚ
  | .Ship _ _ _ => Object.SHIP_SCALE
  | .Shot _ _ _ => 0.01
  | .Obstacle _ _ _ _ scale _ _ => scale

/-- `Object::instance_ids`: the source yields exactly one handle per entity
(an iterator of one element), embedded as that single handle. -/
def Object.instance_id : Object → InstanceID
  | .Ship _ _ instance_id => instance_id
  | .Shot _ _ instance_id => instance_id
  | .Obstacle _ _ _ _ _ _ instance_id => instance_id

/-- Variant tag of an entity, reusing `WhichMesh` as the tag type. -/
def Object.kind : Object → WhichMesh
  | .Ship _ _ _ => .Ship
  | .Shot _ _ _ => .Shot
  | .Obstacle _ _ _ _ _ _ _ => .Obstacle

/-- The life field of an Obstacle, if any. -/
def Object.lifeOf : Object → Option ℕ
  | .Obstacle _ _ _ _ _ life _ => some life
  | _ => none

/-- `Object::collide_with`: the source tests
`distance(self.position, other.position) < self.scale() + other.scale()`
with f32 Euclidean distance.  Embedded square-free (and hence decidable):
for a sum of radii `s`, `sqrt d2 < s` is equivalent to `0 ≤ s ∧ d2 < s ^ 2`;
the equivalence with the real square-root form is proved without hypotheses
in the C1 theorem below. -/
def Object.collide_with (self other : Object) : Bool :=
  decide (0 ≤ self.scale + other.scale ∧
    dist2 self.position other.position < (self.scale + other.scale) ^ 2)

/-- Per-mesh instance storage (`struct InstanceArrayForOneMesh`): the dense
record array and the parallel free bitmap (`true` means unused).  The
`wgpu_buffer` field is GPU-side state with no bearing on the bookkeeping
and is not modelled. -/
structure InstanceArrayForOneMesh where
  instances : List ObjectInstancePod
  unused_instances : List Bool
deriving DecidableEq

/-- The instance table (`struct InstanceTable`): the source keys a HashMap
by the closed enum `WhichMesh` and inserts all three entries at startup, so
it is embedded as a total three-field record. -/
structure InstanceTable where
  obstacle : InstanceArrayForOneMesh
  ship : InstanceArrayForOneMesh
  shot : InstanceArrayForOneMesh
deriving DecidableEq

/-- Table lookup (`self.table.get(&mesh)`, always present). -/
def InstanceTable.get (t : InstanceTable) : WhichMesh → InstanceArrayForOneMesh
  | .Obstacle => t.obstacle
  | .Ship => t.ship
  | .Shot => t.shot

/-- Writing back one mesh class's array. -/
def InstanceTable.setArr (t : InstanceTable) : WhichMesh → InstanceArrayForOneMesh → InstanceTable
  | .Obstacle, a => { t with obstacle := a }
  | .Ship, a => { t with ship := a }
  | .Shot, a => { t with shot := a }

/-- The table as initialized at startup: all three mesh classes present with
empty record and free sequences. -/
def initial_instance_table : InstanceTable :=
  { obstacle := ⟨[], []⟩, ship := ⟨[], []⟩, shot := ⟨[], []⟩ }

/-- The scan `for index in 0..array.instances.len() { if unused[index] ... }`
of `insert_new_instance`: first index below the record count whose free mark
is set.  The source indexes `unused_instances[index]` directly (panicking if
out of bounds); under the length invariant the `getD index false` read is
identical. -/
def firstFreeIndex (arr : InstanceArrayForOneMesh) : Option ℕ :=
  (List.range arr.instances.length).find? fun index => arr.unused_instances.getD index false

/-- `InstanceTable::insert_new_instance`: reuse the first free slot if one
exists (clearing its free mark and overwriting its record), otherwise append
a record and a `false` mark and return the new last index. -/
def InstanceTable.insert_new_instance (t : InstanceTable) (mesh : WhichMesh)
    (inst : ObjectInstancePod) : InstanceID × InstanceTable :=
  let arr := t.get mesh
  match firstFreeIndex arr with
  | some index =>
      (⟨mesh, index⟩,
        t.setArr mesh
          { instances := arr.instances.set index inst,
            unused_instances := arr.unused_instances.set index false })
  | none =>
      (⟨mesh, arr.instances.length⟩,
        t.setArr mesh
          { instances := arr.instances ++ [inst],
            unused_instances := arr.unused_instances ++ [false] })

/-- `InstanceTable::remove_instance`: overwrite the slot's record with the
zeroed record (invisible, zero scale) and mark the slot free. -/
def InstanceTable.remove_instance (t : InstanceTable) (instance_id : InstanceID) : InstanceTable :=
  let arr := t.get instance_id.mesh
  t.setArr instance_id.mesh
    { instances := arr.instances.set instance_id.instance_index ObjectInstancePod.zeroed,
      unused_instances := arr.unused_instances.set instance_id.instance_index true }

/-- The per-frame instance-record refresh write
(`vec[instance_id.instance_index] = ...` in the render section): overwrite
one slot's record in place. -/
def InstanceTable.update_instance (t : InstanceTable) (instance_id : InstanceID)
    (rec : ObjectInstancePod) : InstanceTable :=
  let arr := t.get instance_id.mesh
  t.setArr instance_id.mesh
    { arr with instances := arr.instances.set instance_id.instance_index rec }

/-- The renderer's read-only view of one mesh class: the dense record
sequence (freed slots included) and the count of instances drawn
(`instance_array_len`). -/
def InstanceTable.snapshot (t : InstanceTable) (mesh : WhichMesh) :
    List ObjectInstancePod × ℕ :=
  ((t.get mesh).instances, (t.get mesh).instances.length)

/-- The free mark of a handle's slot (`false` if out of bounds). -/
def unusedAt (t : InstanceTable) (instance_id : InstanceID) : Bool :=
  (t.get instance_id.mesh).unused_instances.getD instance_id.instance_index false

/-- The randomized fields of one spawned obstacle, abstracting the
`rand::thread_rng().gen_range(..)` draws of `spawn_obstacles`. -/
structure ObstacleParams where
  y : ℚ
  angle : ℚ
  scale : ℚ
  vx : ℚ
  vy : ℚ
  spin : ℚ

/-- Abstraction of the real-valued f32 operations the simulation computes:
`f32::cos`, `f32::sin`, `f32::atan2`, cgmath's `normalize` (needs sqrt), and
the ship's inverse-square homing force
`normalize(v) / |v|^2 * 0.000025` clamped to magnitude `0.0001`
(needs sqrt), taken as a whole as a function of the ship-to-cursor vector. -/
structure Oracle where
  cosq : ℚ → ℚ
  sinq : ℚ → ℚ
  atan2q : ℚ → ℚ → ℚ
  normalizeq : Vec2 → Vec2
  homingForce : Vec2 → Vec2

/-- The obstacle built by one iteration of `spawn_obstacles`: x fixed at
1.05, life fixed at 21, the remaining fields drawn from the rng. -/
def obstacle_from_params (p : ObstacleParams) (instance_id : InstanceID) : Object :=
  .Obstacle (1.05, p.y) (p.vx, p.vy) p.angle p.spin p.scale 21 instance_id

/-- `spawn_obstacles`: push `how_many` obstacles, each allocating a fresh
instance slot (zeroed initial record) in the Obstacle mesh class. -/
def spawn_obstacles (supply : ℕ → ObstacleParams) (objects : List Object)
    (t : InstanceTable) (how_many : ℕ) : List Object × InstanceTable :=
  (List.range how_many).foldl
    (fun acc i =>
      let r := acc.2.insert_new_instance .Obstacle ObjectInstancePod.zeroed
      (acc.1 ++ [obstacle_from_params (supply i) r.1], r.2))
    (objects, t)

/-- `init_objects`: fresh collection containing one Ship at the field center
with zero velocity, then 5 spawned obstacles. -/
def init_objects (supply : ℕ → ObstacleParams) (t : InstanceTable) :
    List Object × InstanceTable :=
  let r := t.insert_new_instance .Ship ObjectInstancePod.zeroed
  spawn_obstacles supply [Object.Ship (0, 0) (0, 0) r.1] r.2 5

/-- The mutable state captured by the event-loop closure. -/
structure GameState where
  objects : List Object
  instance_table : InstanceTable
  cursor_position : Vec2
  shooting : Bool
  shooting_delay : ℤ
  game_over : Bool
  score : ℕ

/-- `shooting_delay_max`. -/
def shooting_delay_max : ℤ := 13

/-- The game state right after startup. -/
def initial_state (supply : ℕ → ObstacleParams) : GameState :=
  let r := init_objects supply initial_instance_table
  { objects := r.1, instance_table := r.2, cursor_position := (0, 0),
    shooting := false, shooting_delay := 0, game_over := false, score := 0 }

/-- The decoded logical input events the core consumes.  `cursorMoved`
carries the already-normalized cursor position (the pixel-to-NDC transform
belongs to the excluded windowing collaborator). -/
inductive GEvent
  | cursorMoved (p : Vec2)
  | rightMousePressed
  | leftMouse (pressed : Bool)
  | mainEventsCleared
deriving DecidableEq

/-- Whether an event is the restart request (left click while game over
consumes it as a restart). -/
def GEvent.isRestartReq : GEvent → Bool
  | .leftMouse true => true
  | _ => false

/-- Ship homing control at the top of `Event::MainEventsCleared`: the first
entity must be the Ship (`objects.get_mut(0).unwrap()` plus the
else-branch abort otherwise); its motion gains the clamped inverse-square
homing force toward the cursor. -/
def ship_control (o : Oracle) (st : GameState) : Option GameState :=
  match st.objects with
  | .Ship position motion instance_id :: rest =>
      some { st with
        objects := (.Ship position
          (addv motion (o.homingForce (subv st.cursor_position position)))
          instance_id :: rest) }
  | _ => none

/-- One iteration of the `for i in 0..2` shot-spawning loop: offset the spawn
point left/right of the aim axis, aim the shot at the cursor, allocate its
instance slot, push it. -/
def fire_one (o : Oracle) (cursor ship_position dir dir_left : Vec2)
    (acc : List Object × InstanceTable) (i : ℕ) : List Object × InstanceTable :=
  let position := addv (addv ship_position (smul 0.035 dir))
    (smul (0.016 * ((i : ℚ) * 2 - 1)) dir_left)
  let position_to_cursor := o.normalizeq (subv cursor position)
  let angle := o.atan2q position_to_cursor.2 position_to_cursor.1
  let r := acc.2.insert_new_instance .Shot ObjectInstancePod.zeroed
  (acc.1 ++ [Object.Shot position angle r.1], r.2)

/-- Cooldown decrement plus firing: if the fire button is held and the
cooldown has run out, read the Ship at index 0 (abort if it is not a Ship),
spawn two shots symmetric about the aim axis, and reset the cooldown. -/
def firing (o : Oracle) (st : GameState) : Option GameState :=
  let delay := if 0 ≤ st.shooting_delay then st.shooting_delay - 1 else st.shooting_delay
  if st.shooting ∧ delay ≤ 0 then
    match st.objects.head? with
    | some (.Ship position _ _) =>
        let ship_to_cursor := subv st.cursor_position position
        let a := o.atan2q ship_to_cursor.2 ship_to_cursor.1
        let dir : Vec2 := (o.cosq a, o.sinq a)
        let dir_left : Vec2 := (o.cosq (a + TAU / 4), o.sinq (a + TAU / 4))
        let r := (List.range 2).foldl (fire_one o st.cursor_position position dir dir_left)
          (st.objects, st.instance_table)
        some { st with
          objects := r.1,
          instance_table := r.2,
          shooting_delay := shooting_delay_max }
    | _ => none
  else
    some { st with shooting_delay := delay }

/-- State threaded through the `'object_loop` pass: the (in-place mutated)
entity collection, the accumulated `dead_object_indices`, the spawn-event
flag, the game-over flag and the score. -/
structure LoopState where
  objects : List Object
  dead_object_indices : List ℕ
  spawn_event : Bool
  game_over : Bool
  score : ℕ

/-- One iteration of the inner `'object_pairs_loop`: the three disjoint
else-if collision rules (shot dies on an obstacle, obstacle counts a
colliding shot as damage, ship touching an obstacle sets game over). -/
def innerScanStep (objects : List Object) (object_index : ℕ) (object : Object)
    (acc : Bool × ℕ × Bool) (other_object_index : ℕ) : Bool × ℕ × Bool :=
  if object_index = other_object_index then acc
  else
    match objects[other_object_index]? with
    | none => acc
    | some other_object =>
        if object.is_shot && other_object.is_obstacle && object.collide_with other_object then
          (true, acc.2.1, acc.2.2)
        else if object.is_obstacle && other_object.is_shot && object.collide_with other_object then
          (acc.1, acc.2.1 + 1, acc.2.2)
        else if object.is_ship && other_object.is_obstacle && object.collide_with other_object then
          (acc.1, acc.2.1, true)
        else acc

/-- The whole inner pairwise scan for the entity at `object_index`:
returns `(object_is_shot_and_dies, object_is_obstacle_and_takes_damage,
ship hit an obstacle)`. -/
def innerScan (objects : List Object) (object_index : ℕ) (object : Object) :
    Bool × ℕ × Bool :=
  (List.range objects.length).foldl (innerScanStep objects object_index object)
    (false, 0, false)

/-- The `life == 0` death test on the (already damaged) entity. -/
def Object.isDeadObstacle : Object → Bool
  | .Obstacle _ _ _ _ _ life _ => life == 0
  | _ => false

/-- Motion integration and bounds handling (the `match object` at the bottom
of the outer loop): obstacles and the ship integrate position and wrap
horizontally / bounce vertically (the ship's motion additionally damped by
0.95 on a bounce); shots advance at fixed speed along their angle and the
returned flag reports that the shot left the play bounds (the source then
pushes its index on the dead list). -/
def stepMotion (o : Oracle) : Object → Object × Bool
  | .Obstacle position motion angle angle_rotation scale life instance_id =>
      let p1 := addv position motion
      let a1 := angle + angle_rotation
      let x2 := if p1.1 ≤ -1.1 then 1.1 else if p1.1 > 1.1 then -1.1 else p1.1
      let yv :=
        if p1.2 < -0.5 + scale then (-0.5 + scale, |motion.2|)
        else if p1.2 > 0.5 - scale then (0.5 - scale, -|motion.2|)
        else (p1.2, motion.2)
      (.Obstacle (x2, yv.1) (motion.1, yv.2) a1 angle_rotation scale life instance_id, false)
  | .Ship position motion instance_id =>
      let p1 := addv position motion
      let x2 := if p1.1 ≤ -1.1 then 1.1 else if p1.1 > 1.1 then -1.1 else p1.1
      let ym :=
        if p1.2 < -0.5 + Object.SHIP_SCALE then
          (-0.5 + Object.SHIP_SCALE, smul 0.95 (motion.1, |motion.2|))
        else if p1.2 > 0.5 - Object.SHIP_SCALE then
          (0.5 - Object.SHIP_SCALE, smul 0.95 (motion.1, -|motion.2|))
        else (p1.2, motion)
      (.Ship (x2, ym.1) ym.2 instance_id, false)
  | .Shot position angle instance_id =>
      let motion := smul 0.015 (o.cosq angle, o.sinq angle)
      let p1 := addv position motion
      (.Shot p1 angle instance_id,
        decide (p1.1 ≤ -1.1 ∨ p1.1 > 1.1 ∨ p1.2 ≤ -0.6 ∨ p1.2 > 0.6))

/-- One iteration of the outer `'object_loop` at `object_index`: inner
pairwise scan, then (with the mutable re-borrow) saturating damage
application for an obstacle — aborting if the damage counter is positive on
a non-obstacle — then the death test (pushing the index and bumping
score/spawn for an obstacle kill, skipping motion), otherwise motion
integration, with an out-of-bounds shot pushed on the dead list. -/
def objectLoopStep (o : Oracle) (st : LoopState) (object_index : ℕ) : Option LoopState :=
  match st.objects[object_index]? with
  | none => none
  | some object =>
      let scan := innerScan st.objects object_index object
      let object_is_shot_and_dies := scan.1
      let object_is_obstacle_and_takes_damage := scan.2.1
      let go := st.game_over || scan.2.2
      let damaged : Option (List Object × Object) :=
        if 0 < object_is_obstacle_and_takes_damage then
          match object with
          | .Obstacle position motion angle angle_rotation scale life instance_id =>
              let object' := Object.Obstacle position motion angle angle_rotation scale
                (life - object_is_obstacle_and_takes_damage) instance_id
              some (st.objects.set object_index object', object')
          | _ => none
        else some (st.objects, object)
      damaged.bind fun d =>
        if object_is_shot_and_dies || d.2.isDeadObstacle then
          some {
            objects := d.1,
            dead_object_indices := st.dead_object_indices ++ [object_index],
            spawn_event := st.spawn_event || d.2.is_obstacle,
            game_over := go,
            score := if d.2.is_obstacle then st.score + 1 else st.score }
        else
          let m := stepMotion o d.2
          some {
            objects := d.1.set object_index m.1,
            dead_object_indices := (if m.2 then st.dead_object_indices ++ [object_index]
              else st.dead_object_indices),
            spawn_event := st.spawn_event,
            game_over := go,
            score := st.score }

/-- The full `'object_loop` pass over `0..objects.len()` (the bound is read
once; the collection's length never changes inside the loop). -/
def object_loop (o : Oracle) (objects : List Object) (game_over : Bool) (score : ℕ) :
    Option LoopState :=
  (List.range objects.length).foldl
    (fun acc i => acc.bind fun st => objectLoopStep o st i)
    (some { objects := objects, dead_object_indices := [], spawn_event := false,
            game_over := game_over, score := score })

/-- One step of the dead-entity removal loop: look up the entity at the
index, remove it from the collection (`Vec::remove`) and free its instance
slot. -/
def removeDeadStep (acc : List Object × InstanceTable) (dead_object_index : ℕ) :
    List Object × InstanceTable :=
  match acc.1[dead_object_index]? with
  | some dead_object => (acc.1.eraseIdx dead_object_index, acc.2.remove_instance dead_object.instance_id)
  | none => acc

/-- The removal pass: `dead_object_indices.sort()` then iterate in reverse
(descending index order), removing each dead entity and freeing its slot. -/
def removeDead (objects : List Object) (t : InstanceTable) (dead_object_indices : List ℕ) :
    List Object × InstanceTable :=
  ((dead_object_indices.insertionSort (· ≤ ·)).reverse).foldl removeDeadStep (objects, t)

/-- The simulation part of `Event::MainEventsCleared`: skipped entirely when
game over; otherwise ship control, firing, the collision/motion loop, dead
removal, and the spawn event (2 replacement obstacles). -/
def advance_frame (o : Oracle) (supply : ℕ → ObstacleParams) (st : GameState) :
    Option GameState :=
  if st.game_over then some st
  else
    (ship_control o st).bind fun st1 =>
    (firing o st1).bind fun st2 =>
    (object_loop o st2.objects st2.game_over st2.score).bind fun ls =>
    let r := removeDead ls.objects st2.instance_table ls.dead_object_indices
    let r2 := if ls.spawn_event then spawn_obstacles supply r.1 r.2 2 else r
    some { st2 with
      objects := r2.1,
      instance_table := r2.2,
      game_over := ls.game_over,
      score := ls.score }

/-- The instance record written for one entity during the render refresh:
ship and shot render angles are offset by `TAU/4` (the ship's derived from
the current aim direction), shade sensitivity 3 for ship/obstacle and 0 for
shots. -/
def render_record (o : Oracle) (cursor : Vec2) : Object → ObjectInstancePod
  | .Ship position _ _ =>
      { position := position,
        angle := o.atan2q (cursor.2 - position.2) (cursor.1 - position.1) - TAU / 4,
        scale := Object.SHIP_SCALE, shade_sensitivity := 3 }
  | .Shot position angle _ =>
      { position := position, angle := angle - TAU / 4, scale := 0.01,
        shade_sensitivity := 0 }
  | .Obstacle position _ angle _ scale _ _ =>
      { position := position, angle := angle, scale := scale, shade_sensitivity := 3 }

/-- The per-frame instance refresh (render section): every entity's record
is rewritten in place, except the ship's when game over. -/
def instance_refresh (o : Oracle) (st : GameState) : GameState :=
  { st with
    instance_table := (st.objects.foldl
      (fun t obj =>
        if obj.is_ship && st.game_over then t
        else t.update_instance obj.instance_id (render_record o st.cursor_position obj))
      st.instance_table) }

/-- The game-over restart handler (left click while game over): free every
entity's instance slot, clear game over, reset the score, re-run the
initial setup. -/
def free_all_objects (objects : List Object) (t : InstanceTable) : InstanceTable :=
  objects.foldl (fun acc obj => acc.remove_instance obj.instance_id) t

/-- The whole restart: the freed table re-seeded by `init_objects`. -/
def restart (supply : ℕ → ObstacleParams) (st : GameState) : GameState :=
  let t := free_all_objects st.objects st.instance_table
  let r := init_objects supply t
  { st with objects := r.1, instance_table := r.2, game_over := false, score := 0 }

/-- The event-loop dispatch over the decoded logical events, restricted to
the arms that touch the simulation state.  `Resized` and `CloseRequested`
touch only the excluded graphics state and are omitted. -/
def handle_event (o : Oracle) (supply : ℕ → ObstacleParams) (st : GameState) :
    GEvent → Option GameState
  | .cursorMoved p => some { st with cursor_position := p }
  | .rightMousePressed =>
      if st.game_over then some st
      else
        match st.objects with
        | .Ship position motion instance_id :: rest =>
            let ship_to_cursor := subv st.cursor_position position
            let a := o.atan2q ship_to_cursor.2 ship_to_cursor.1
            let force := smul 0.003 (o.cosq a, o.sinq a)
            some { st with objects := .Ship position (addv motion force) instance_id :: rest }
        | _ => none
  | .leftMouse pressed =>
      if st.game_over = false then some { st with shooting := pressed }
      else if pressed then some (restart supply st)
      else some st
  | .mainEventsCleared => (advance_frame o supply st).map (instance_refresh o)

/-- Folding a stream of events through the handler. -/
def handle_events (o : Oracle) (supply : ℕ → ObstacleParams) (st : GameState)
    (evs : List GEvent) : Option GameState :=
  evs.foldl (fun acc ev => acc.bind fun s => handle_event o supply s ev) (some st)

/-! ### Derived notions used to state the claims -/

/-- A trivial oracle (all abstracted real-valued operations return 0), used
to instantiate theorems on concrete inputs. -/
def oracle0 : Oracle :=
  ⟨fun _ => 0, fun _ => 0, fun _ _ => 0, fun _ => (0, 0), fun _ => (0, 0)⟩

/-- A fixed parameter supply for concrete instantiations. -/
def supply0 : ℕ → ObstacleParams := fun _ => ⟨0, 0, 0.03, 0, 0, 0⟩

/-- The real-valued Euclidean distance the source's `collide_with` compares
(cgmath `MetricSpace::distance` on f32, idealized over ℝ). -/
noncomputable def distR (a b : Vec2) : ℝ :=
  Real.sqrt (((a.1 - b.1 : ℚ) : ℝ) ^ 2 + ((a.2 - b.2 : ℚ) : ℝ) ^ 2)

/-- The per-mesh invariant `records.len() == free.len()`. -/
def lenInv (t : InstanceTable) : Prop :=
  ∀ m, (t.get m).instances.length = (t.get m).unused_instances.length

/-- Slot `i` of mesh class `mesh` is currently marked free. -/
def FreeAt (t : InstanceTable) (mesh : WhichMesh) (i : ℕ) : Prop :=
  (t.get mesh).unused_instances[i]? = some true

/-! ### C1: collision is strict comparison of distance against summed radii -/

theorem dist2_nonneg (a b : Vec2) : 0 ≤ dist2 a b := by
  unfold dist2; positivity

/-- Claim C1: two entities collide exactly when the Euclidean distance
between their positions is strictly less than the sum of their radii
(`Object.scale`: fixed 0.02 for a Ship, fixed 0.01 for a Shot, the
obstacle's own scale); in particular at distance exactly `r1 + r2` there is
no collision, and at any distance `r1 + r2 - ε` with `ε > 0` there is. -/
theorem C1_collide_iff_distance_lt (o1 o2 : Object) :
    (o1.collide_with o2 = true ↔
      distR o1.position o2.position < ((o1.scale + o2.scale : ℚ) : ℝ)) ∧
    (distR o1.position o2.position = ((o1.scale + o2.scale : ℚ) : ℝ) →
      o1.collide_with o2 = false) ∧
    (∀ ε : ℝ, 0 < ε →
      distR o1.position o2.position = ((o1.scale + o2.scale : ℚ) : ℝ) - ε →
      o1.collide_with o2 = true) := by
  have hd2 : ((dist2 o1.position o2.position : ℚ) : ℝ) =
      ((o1.position.1 - o2.position.1 : ℚ) : ℝ) ^ 2 +
      ((o1.position.2 - o2.position.2 : ℚ) : ℝ) ^ 2 := by
    unfold dist2; push_cast; ring
  have hd2n : (0 : ℚ) ≤ dist2 o1.position o2.position := dist2_nonneg _ _
  have key : o1.collide_with o2 = true ↔
      distR o1.position o2.position < ((o1.scale + o2.scale : ℚ) : ℝ) := by
    unfold Object.collide_with distR
    rw [decide_eq_true_eq, ← hd2]
    constructor
    · rintro ⟨hs, hlt⟩
      rcases lt_or_eq_of_le hs with h0 | h0
      · rw [Real.sqrt_lt' (by exact_mod_cast h0)]
        exact_mod_cast hlt
      · exact absurd (h0 ▸ hlt) (by simpa using hd2n.not_lt)
    · intro h
      have h0 : (0 : ℝ) < ((o1.scale + o2.scale : ℚ) : ℝ) :=
        lt_of_le_of_lt (Real.sqrt_nonneg _) h
      refine ⟨by exact_mod_cast h0.le, ?_⟩
      have := (Real.sqrt_lt' h0).mp h
      exact_mod_cast this
  refine ⟨key, ?_, ?_⟩
  · intro heq
    rcases Bool.eq_false_or_eq_true (o1.collide_with o2) with h | h
    · exact absurd (heq ▸ key.mp h) (lt_irrefl _)
    · exact h
  · intro ε hε heq
    exact key.mpr (heq ▸ sub_lt_self _ hε)

/-- Witness instantiating the C1 theorem: a Ship at the origin and a Shot at
distance 0.02 = (0.02 + 0.01) − 0.01 collide, obtained from the ε-branch of
the theorem at ε = 0.01. -/
theorem C1_collide_iff_distance_lt_witness :
    (0 : ℝ) < 0.01 ∧
      (Object.Ship (0, 0) (0, 0) ⟨.Ship, 0⟩).collide_with
        (Object.Shot (0.02, 0) 0 ⟨.Shot, 0⟩) = true := by
  constructor
  · norm_num
  · apply (C1_collide_iff_distance_lt (Object.Ship (0, 0) (0, 0) ⟨.Ship, 0⟩)
      (Object.Shot (0.02, 0) 0 ⟨.Shot, 0⟩)).2.2 0.01 (by norm_num)
    unfold distR Object.position Object.scale Object.SHIP_SCALE
    have h : (((0 : ℚ) - (0.02 : ℚ) : ℚ) : ℝ) ^ 2 + (((0 : ℚ) - (0 : ℚ) : ℚ) : ℝ) ^ 2 =
        ((0.02 : ℝ)) ^ 2 := by push_cast; norm_num
    rw [h, Real.sqrt_sq (by norm_num)]
    push_cast
    norm_num

/-! ### Table bookkeeping lemmas shared by several claims -/

theorem get_setArr_self (t : InstanceTable) (m : WhichMesh) (a : InstanceArrayForOneMesh) :
    (t.setArr m a).get m = a := by
  cases m <;> rfl

theorem get_setArr_ne (t : InstanceTable) (m m' : WhichMesh) (a : InstanceArrayForOneMesh)
    (h : m' ≠ m) : (t.setArr m a).get m' = t.get m' := by
  cases m <;> cases m' <;> first | rfl | exact absurd rfl h

theorem remove_instance_get_self (t : InstanceTable) (H : InstanceID) :
    (t.remove_instance H).get H.mesh =
      ⟨(t.get H.mesh).instances.set H.instance_index ObjectInstancePod.zeroed,
       (t.get H.mesh).unused_instances.set H.instance_index true⟩ := by
  unfold InstanceTable.remove_instance
  exact get_setArr_self ..

theorem remove_instance_get_ne (t : InstanceTable) (H : InstanceID) (m : WhichMesh)
    (h : m ≠ H.mesh) : (t.remove_instance H).get m = t.get m := by
  unfold InstanceTable.remove_instance
  exact get_setArr_ne _ _ _ _ h

/-- Freeing a slot sets its free mark (when the mark exists). -/
theorem unusedAt_remove_self (t : InstanceTable) (H : InstanceID)
    (h : H.instance_index < (t.get H.mesh).unused_instances.length) :
    unusedAt (t.remove_instance H) H = true := by
  unfold unusedAt
  rw [remove_instance_get_self]
  simp only [List.getD_eq_getElem?_getD]
  rw [List.getElem?_set_eq_of_lt _ h]
  rfl

/-- Freeing a slot does not change the free mark of any other handle. -/
theorem unusedAt_remove_ne (t : InstanceTable) (H K : InstanceID) (h : K ≠ H) :
    unusedAt (t.remove_instance H) K = unusedAt t K := by
  unfold unusedAt
  by_cases hm : K.mesh = H.mesh
  · rw [hm, remove_instance_get_self]
    simp only [List.getD_eq_getElem?_getD]
    rw [List.getElem?_set_ne]
    intro hidx
    exact h (by cases K; cases H; simp_all)
  · rw [remove_instance_get_ne _ _ _ hm]

/-- Claim C5: freeing a handle overwrites its slot's record with the
all-zero record (zero scale, degenerate geometry, visible in the snapshot)
and marks the slot free, leaving every other slot's record and free mark,
and every other mesh class, unchanged. -/
theorem C5_remove_instance_zeroes_and_frees (t : InstanceTable) (H : InstanceID)
    (h1 : H.instance_index < (t.get H.mesh).instances.length)
    (h2 : H.instance_index < (t.get H.mesh).unused_instances.length) :
    (((t.remove_instance H).snapshot H.mesh).1[H.instance_index]? =
        some ObjectInstancePod.zeroed) ∧
    (∃ rec, ((t.remove_instance H).snapshot H.mesh).1[H.instance_index]? = some rec ∧
        rec.scale = 0) ∧
    unusedAt (t.remove_instance H) H = true ∧
    (∀ j, j ≠ H.instance_index →
      ((t.remove_instance H).get H.mesh).instances[j]? = (t.get H.mesh).instances[j]? ∧
      ((t.remove_instance H).get H.mesh).unused_instances[j]? =
        (t.get H.mesh).unused_instances[j]?) ∧
    (∀ m, m ≠ H.mesh → (t.remove_instance H).get m = t.get m) := by
  have hsnap : ((t.remove_instance H).snapshot H.mesh).1 =
      (t.get H.mesh).instances.set H.instance_index ObjectInstancePod.zeroed := by
    unfold InstanceTable.snapshot
    rw [remove_instance_get_self]
  refine ⟨?_, ?_, unusedAt_remove_self t H h2, ?_, ?_⟩
  · rw [hsnap, List.getElem?_set_eq_of_lt _ h1]
  · exact ⟨ObjectInstancePod.zeroed, by rw [hsnap, List.getElem?_set_eq_of_lt _ h1], rfl⟩
  · intro j hj
    rw [remove_instance_get_self]
    exact ⟨List.getElem?_set_ne (fun he => hj he.symm),
      List.getElem?_set_ne (fun he => hj he.symm)⟩
  · exact fun m hm => remove_instance_get_ne t H m hm

/-- Witness instantiating the C5 theorem on a one-slot Shot table. -/
theorem C5_remove_instance_zeroes_and_frees_witness :
    (0 < ((InstanceTable.mk ⟨[], []⟩ ⟨[], []⟩
        ⟨[⟨(1, 2), 3, 4, 5⟩], [false]⟩).get WhichMesh.Shot).instances.length) ∧
    unusedAt ((InstanceTable.mk ⟨[], []⟩ ⟨[], []⟩
        ⟨[⟨(1, 2), 3, 4, 5⟩], [false]⟩).remove_instance ⟨.Shot, 0⟩) ⟨.Shot, 0⟩ = true := by
  refine ⟨by simp [InstanceTable.get], ?_⟩
  exact (C5_remove_instance_zeroes_and_frees _ ⟨.Shot, 0⟩ (by simp [InstanceTable.get])
    (by simp [InstanceTable.get])).2.2.1

/-! ### C9: every operation preserves records.len() == free.len() -/

/-- Claim C9: the per-mesh invariant `records.len() == free.len()` holds for
the table as initialized (both empty) and is preserved by allocation,
freeing, and the per-frame record update; `snapshot` is read-only (it
returns the record sequence and its length and does not produce a table). -/
theorem C9_length_invariant :
    lenInv initial_instance_table ∧
    (∀ (t : InstanceTable) (mesh : WhichMesh) (inst : ObjectInstancePod),
      lenInv t → lenInv (t.insert_new_instance mesh inst).2) ∧
    (∀ (t : InstanceTable) (instance_id : InstanceID),
      lenInv t → lenInv (t.remove_instance instance_id)) ∧
    (∀ (t : InstanceTable) (instance_id : InstanceID) (rec : ObjectInstancePod),
      lenInv t → lenInv (t.update_instance instance_id rec)) ∧
    (∀ (t : InstanceTable) (mesh : WhichMesh),
      (t.snapshot mesh).2 = (t.get mesh).instances.length) := by
  refine ⟨?_, ?_, ?_, ?_, fun _ _ => rfl⟩
  · intro m; cases m <;> rfl
  · intro t mesh inst hinv m
    cases hf : firstFreeIndex (t.get mesh) with
    | some index =>
        by_cases hm : m = mesh
        · subst hm
          simp only [InstanceTable.insert_new_instance, hf, get_setArr_self]
          simpa using hinv m
        · simp only [InstanceTable.insert_new_instance, hf, get_setArr_ne _ _ _ _ hm]
          exact hinv m
    | none =>
        by_cases hm : m = mesh
        · subst hm
          simp only [InstanceTable.insert_new_instance, hf, get_setArr_self]
          simpa using hinv m
        · simp only [InstanceTable.insert_new_instance, hf, get_setArr_ne _ _ _ _ hm]
          exact hinv m
  · intro t instance_id hinv m
    by_cases hm : m = instance_id.mesh
    · rw [hm, remove_instance_get_self]
      simpa using hinv instance_id.mesh
    · rw [remove_instance_get_ne _ _ _ hm]
      exact hinv m
  · intro t instance_id rec hinv m
    unfold InstanceTable.update_instance
    by_cases hm : m = instance_id.mesh
    · rw [hm]
      simp only [get_setArr_self]
      simpa using hinv instance_id.mesh
    · simp only [get_setArr_ne _ _ _ _ hm]
      exact hinv m

/-- Witness instantiating the C9 theorem: allocation into the freshly
initialized table keeps the invariant. -/
theorem C9_length_invariant_witness :
    lenInv initial_instance_table ∧
    lenInv (initial_instance_table.insert_new_instance .Ship
      ObjectInstancePod.zeroed).2 :=
  ⟨C9_length_invariant.1,
    C9_length_invariant.2.1 _ _ _ C9_length_invariant.1⟩

/-! ### C4: allocation reuses the first free slot, else appends -/

theorem find?_range_eq_none_spec {n : ℕ} {p : ℕ → Bool}
    (h : (List.range n).find? p = none) : ∀ j < n, p j = false := by
  intro j hj
  have := List.find?_eq_none.mp h j (List.mem_range.mpr hj)
  simpa using this

theorem find?_range_eq_some_spec : ∀ {n : ℕ} {p : ℕ → Bool} {i : ℕ},
    (List.range n).find? p = some i → i < n ∧ p i = true ∧ ∀ j < i, p j = false := by
  intro n
  induction n with
  | zero => intro p i h; simp [List.range_zero] at h
  | succ n ih =>
      intro p i h
      rw [List.range_succ, List.find?_append] at h
      cases hf : (List.range n).find? p with
      | some i' =>
          rw [hf] at h
          simp only [Option.or_some] at h
          obtain rfl : i' = i := by injection h
          obtain ⟨h1, h2, h3⟩ := ih hf
          exact ⟨Nat.lt_succ_of_lt h1, h2, h3⟩
      | none =>
          rw [hf] at h
          simp only [Option.none_or] at h
          by_cases hp : p n
          · obtain rfl : n = i := by
              have : List.find? p [n] = some n := by simp [List.find?, hp]
              rw [this] at h; injection h
            exact ⟨Nat.lt_succ_self n, hp,
              fun j hj => find?_range_eq_none_spec hf j hj⟩
          · exfalso
            have : List.find? p [n] = none := by
              simp [List.find?_eq_none, hp]
            rw [this] at h
            exact Option.noConfusion h

/-- A free slot index is within the free bitmap. -/
theorem FreeAt_lt_unused_length {t : InstanceTable} {mesh : WhichMesh} {j : ℕ}
    (hj : FreeAt t mesh j) : j < (t.get mesh).unused_instances.length := by
  by_contra hge
  rw [FreeAt, List.getElem?_eq_none (Nat.le_of_not_lt hge)] at hj
  exact Option.noConfusion hj

/-- The scan predicate of `firstFreeIndex` agrees with `FreeAt` below the
record count, under the length invariant. -/
theorem freeScan_iff {t : InstanceTable} {mesh : WhichMesh}
    (hlen : (t.get mesh).instances.length = (t.get mesh).unused_instances.length)
    {j : ℕ} (hj : j < (t.get mesh).instances.length) :
    ((t.get mesh).unused_instances.getD j false = true ↔ FreeAt t mesh j) := by
  rw [hlen] at hj
  unfold FreeAt
  rw [List.getD_eq_getElem?_getD, List.getElem?_eq_getElem hj]
  simp

/-- When some slot is free, allocation returns the least free index, clears
its mark, overwrites its record, and does not change either sequence's
length. -/
theorem insert_first_free_spec (t : InstanceTable) (mesh : WhichMesh)
    (inst : ObjectInstancePod)
    (hlen : (t.get mesh).instances.length = (t.get mesh).unused_instances.length)
    (i : ℕ) (hi : FreeAt t mesh i) :
    FreeAt t mesh (t.insert_new_instance mesh inst).1.instance_index ∧
    (∀ j, FreeAt t mesh j → (t.insert_new_instance mesh inst).1.instance_index ≤ j) ∧
    (((t.insert_new_instance mesh inst).2.get mesh).instances.length =
      (t.get mesh).instances.length) ∧
    (((t.insert_new_instance mesh inst).2.get mesh).unused_instances.length =
      (t.get mesh).unused_instances.length) ∧
    ((t.insert_new_instance mesh inst).2.get mesh).unused_instances[
      (t.insert_new_instance mesh inst).1.instance_index]? = some false ∧
    ((t.insert_new_instance mesh inst).2.get mesh).instances[
      (t.insert_new_instance mesh inst).1.instance_index]? = some inst := by
  have hi_lt : i < (t.get mesh).instances.length := by
    have := FreeAt_lt_unused_length hi
    omega
  cases hf : firstFreeIndex (t.get mesh) with
  | none =>
      exfalso
      have hfalse := find?_range_eq_none_spec hf i hi_lt
      have htrue := (freeScan_iff hlen hi_lt).mpr hi
      rw [hfalse] at htrue
      exact Bool.noConfusion htrue
  | some r =>
      obtain ⟨hr_lt, hr_p, hr_min⟩ := find?_range_eq_some_spec hf
      have hr_free : FreeAt t mesh r := (freeScan_iff hlen hr_lt).mp hr_p
      have hres : (t.insert_new_instance mesh inst).1.instance_index = r := by
        simp [InstanceTable.insert_new_instance, hf]
      have htab : (t.insert_new_instance mesh inst).2.get mesh =
          ⟨(t.get mesh).instances.set r inst,
           (t.get mesh).unused_instances.set r false⟩ := by
        simp [InstanceTable.insert_new_instance, hf, get_setArr_self]
      refine ⟨hres ▸ hr_free, ?_, ?_, ?_, ?_, ?_⟩
      · intro j hj
        rw [hres]
        by_contra hlt
        have hjr : j < r := Nat.lt_of_not_le hlt
        have hfalse := hr_min j hjr
        have htrue := (freeScan_iff hlen (Nat.lt_trans hjr hr_lt)).mpr hj
        rw [hfalse] at htrue
        exact Bool.noConfusion htrue
      · rw [htab]; simp
      · rw [htab]; simp
      · rw [htab, hres]
        exact List.getElem?_set_eq_of_lt _ (by rw [← hlen]; exact hr_lt)
      · rw [htab, hres]
        exact List.getElem?_set_eq_of_lt _ hr_lt

/-- Claim C4 (amended): under the length invariant, allocation returns the
lowest currently-free slot index when one exists, clearing its mark and
overwriting its record without growing the table; when no slot is free it
appends one record and one `false` mark and returns the new last index; no
mesh class's sequence ever shrinks; and after freeing a handle `H` and
allocating again for the same mesh class, the table does not grow and the
returned index is the lowest free one, hence at most `H.instance_index`
(it equals `H.instance_index` exactly when no lower-indexed slot is free). -/
theorem C4_insert_reuses_first_free (t : InstanceTable) (mesh : WhichMesh)
    (inst : ObjectInstancePod)
    (hlen : (t.get mesh).instances.length = (t.get mesh).unused_instances.length) :
    ((∃ i, FreeAt t mesh i) →
      FreeAt t mesh (t.insert_new_instance mesh inst).1.instance_index ∧
      (∀ j, FreeAt t mesh j → (t.insert_new_instance mesh inst).1.instance_index ≤ j) ∧
      (((t.insert_new_instance mesh inst).2.get mesh).instances.length =
        (t.get mesh).instances.length) ∧
      ((t.insert_new_instance mesh inst).2.get mesh).unused_instances[
        (t.insert_new_instance mesh inst).1.instance_index]? = some false ∧
      ((t.insert_new_instance mesh inst).2.get mesh).instances[
        (t.insert_new_instance mesh inst).1.instance_index]? = some inst) ∧
    ((¬ ∃ i, FreeAt t mesh i) →
      (t.insert_new_instance mesh inst).1.instance_index = (t.get mesh).instances.length ∧
      ((t.insert_new_instance mesh inst).2.get mesh).instances =
        (t.get mesh).instances ++ [inst] ∧
      ((t.insert_new_instance mesh inst).2.get mesh).unused_instances =
        (t.get mesh).unused_instances ++ [false]) ∧
    (∀ m, (t.get m).instances.length ≤
      ((t.insert_new_instance mesh inst).2.get m).instances.length) ∧
    (∀ H : InstanceID, H.mesh = mesh →
      H.instance_index < (t.get mesh).instances.length →
      ((t.remove_instance H).insert_new_instance mesh inst).1.instance_index ≤
        H.instance_index ∧
      (((t.remove_instance H).insert_new_instance mesh inst).2.get mesh).instances.length =
        (t.get mesh).instances.length) := by
  refine ⟨?_, ?_, ?_, ?_⟩
  · rintro ⟨i, hi⟩
    obtain ⟨h1, h2, h3, _, h5, h6⟩ := insert_first_free_spec t mesh inst hlen i hi
    exact ⟨h1, h2, h3, h5, h6⟩
  · intro hno
    cases hf : firstFreeIndex (t.get mesh) with
    | some r =>
        exfalso
        obtain ⟨hr_lt, hr_p, _⟩ := find?_range_eq_some_spec hf
        exact hno ⟨r, (freeScan_iff hlen hr_lt).mp hr_p⟩
    | none =>
        refine ⟨?_, ?_, ?_⟩ <;>
          simp [InstanceTable.insert_new_instance, hf, get_setArr_self]
  · intro m
    cases hf : firstFreeIndex (t.get mesh) with
    | some r =>
        by_cases hm : m = mesh
        · subst hm
          simp [InstanceTable.insert_new_instance, hf, get_setArr_self]
        · simp [InstanceTable.insert_new_instance, hf, get_setArr_ne _ _ _ _ hm]
    | none =>
        by_cases hm : m = mesh
        · subst hm
          simp [InstanceTable.insert_new_instance, hf, get_setArr_self]
        · simp [InstanceTable.insert_new_instance, hf, get_setArr_ne _ _ _ _ hm]
  · intro H hHm hHlt
    subst hHm
    have hlen' : ((t.remove_instance H).get H.mesh).instances.length =
        ((t.remove_instance H).get H.mesh).unused_instances.length := by
      rw [remove_instance_get_self]
      simpa using hlen
    have hHfree : FreeAt (t.remove_instance H) H.mesh H.instance_index := by
      unfold FreeAt
      rw [remove_instance_get_self]
      refine List.getElem?_set_eq_of_lt _ ?_
      omega
    obtain ⟨_, h2, h3, _, _, _⟩ :=
      insert_first_free_spec (t.remove_instance H) H.mesh inst hlen' H.instance_index hHfree
    refine ⟨h2 H.instance_index hHfree, ?_⟩
    rw [h3, remove_instance_get_self]
    simp

/-- A Shot table with one record whose slot is free, for the C4 witness. -/
def one_free_shot_table : InstanceTable :=
  ⟨⟨[], []⟩, ⟨[], []⟩, ⟨[ObjectInstancePod.zeroed], [true]⟩⟩

/-- Witness instantiating the amended C4 theorem: on a Shot table with one
record and its slot free, allocation reuses slot 0 without growing. -/
theorem C4_insert_reuses_first_free_witness :
    ((one_free_shot_table.get WhichMesh.Shot).instances.length =
      (one_free_shot_table.get WhichMesh.Shot).unused_instances.length) ∧
    ((one_free_shot_table.insert_new_instance .Shot
        ObjectInstancePod.zeroed).2.get .Shot).instances.length =
      (one_free_shot_table.get WhichMesh.Shot).instances.length := by
  refine ⟨rfl, ?_⟩
  exact ((C4_insert_reuses_first_free one_free_shot_table .Shot
    ObjectInstancePod.zeroed rfl).1 ⟨0, rfl⟩).2.2.1

/-- The table used to refute the literal reading of claim C4's consequence:
two Shot slots, slot 0 freed first, then handle `H = (Shot, 1)` freed. -/
def two_freed_shot_table : InstanceTable :=
  let t1 := (initial_instance_table.insert_new_instance .Shot ObjectInstancePod.zeroed).2
  let t2 := (t1.insert_new_instance .Shot ObjectInstancePod.zeroed).2
  let t3 := t2.remove_instance ⟨.Shot, 0⟩
  t3.remove_instance ⟨.Shot, 1⟩

/-- Counterexample to claim C4 as stated: after freeing handle `H = (Shot, 1)`
last, a slot is free (indeed `H`'s own slot is free), yet the next allocation
for the Shot mesh class returns slot index 0, not `H`'s slot index 1 — so
"H's slot_index is reused before the table grows whenever any slot is free"
fails; only the lowest free index is reused. -/
theorem C4_counterexample :
    unusedAt two_freed_shot_table ⟨.Shot, 1⟩ = true ∧
    (two_freed_shot_table.insert_new_instance .Shot
      ObjectInstancePod.zeroed).1.instance_index = 0 ∧
    (0 : ℕ) ≠ 1 := by
  refine ⟨by with_unfolding_all rfl, by with_unfolding_all rfl, by omega⟩

/-! ### C6: horizontal wrap and vertical bounce during motion integration -/

/-- Claim C6 (amended): during motion integration an Obstacle or Ship whose
horizontal position passes the ±1.1 limit reappears at the opposite limit
with its velocity unchanged; one whose vertical position passes the
play-field margin (±(0.5 − radius)) has its vertical position clamped to
the margin and its vertical velocity set to the absolute value directed
back into the field (`+|vy|` at the bottom, `−|vy|` at the top) — so the
sign flips exactly when the velocity pointed out of the field, and is kept
when it already pointed inward; the Ship's whole velocity is additionally
damped by 0.95 on a vertical bounce. -/
theorem C6_wrap_and_bounce (o : Oracle) :
    (∀ (px py vx vy ang spin sc : ℚ) (life : ℕ) (instance_id : InstanceID),
      ∃ qx qy wy : ℚ,
        stepMotion o (.Obstacle (px, py) (vx, vy) ang spin sc life instance_id) =
          (.Obstacle (qx, qy) (vx, wy) (ang + spin) spin sc life instance_id, false) ∧
        (px + vx ≤ -1.1 → qx = 1.1) ∧
        (¬ px + vx ≤ -1.1 → px + vx > 1.1 → qx = -1.1) ∧
        (¬ px + vx ≤ -1.1 → ¬ px + vx > 1.1 → qx = px + vx) ∧
        (py + vy < -0.5 + sc →
          qy = -0.5 + sc ∧ wy = |vy| ∧ (vy < 0 → wy = -vy) ∧ (0 ≤ vy → wy = vy)) ∧
        (¬ py + vy < -0.5 + sc → py + vy > 0.5 - sc →
          qy = 0.5 - sc ∧ wy = -|vy| ∧ (0 < vy → wy = -vy) ∧ (vy ≤ 0 → wy = vy)) ∧
        (¬ py + vy < -0.5 + sc → ¬ py + vy > 0.5 - sc → qy = py + vy ∧ wy = vy)) ∧
    (∀ (px py vx vy : ℚ) (instance_id : InstanceID),
      ∃ qx qy wx wy : ℚ,
        stepMotion o (.Ship (px, py) (vx, vy) instance_id) =
          (.Ship (qx, qy) (wx, wy) instance_id, false) ∧
        (px + vx ≤ -1.1 → qx = 1.1) ∧
        (¬ px + vx ≤ -1.1 → px + vx > 1.1 → qx = -1.1) ∧
        (¬ px + vx ≤ -1.1 → ¬ px + vx > 1.1 → qx = px + vx) ∧
        (py + vy < -0.5 + Object.SHIP_SCALE →
          qy = -0.5 + Object.SHIP_SCALE ∧ wx = 0.95 * vx ∧ wy = 0.95 * |vy|) ∧
        (¬ py + vy < -0.5 + Object.SHIP_SCALE → py + vy > 0.5 - Object.SHIP_SCALE →
          qy = 0.5 - Object.SHIP_SCALE ∧ wx = 0.95 * vx ∧ wy = 0.95 * (-|vy|)) ∧
        (¬ py + vy < -0.5 + Object.SHIP_SCALE → ¬ py + vy > 0.5 - Object.SHIP_SCALE →
          qy = py + vy ∧ wx = vx ∧ wy = vy)) := by
  constructor
  · intro px py vx vy ang spin sc life instance_id
    refine ⟨_, _, _, rfl, ?_, ?_, ?_, ?_, ?_, ?_⟩
    · intro h
      simp only [stepMotion, addv]
      rw [if_pos h]
    · intro h1 h2
      simp only [stepMotion, addv]
      rw [if_neg h1, if_pos h2]
    · intro h1 h2
      simp only [stepMotion, addv]
      rw [if_neg h1, if_neg h2]
    · intro h
      simp only [stepMotion, addv]
      rw [if_pos h]
      exact ⟨rfl, rfl, fun hv => abs_of_neg hv, fun hv => abs_of_nonneg hv⟩
    · intro h1 h2
      simp only [stepMotion, addv]
      rw [if_neg h1, if_pos h2]
      refine ⟨rfl, rfl, fun hv => by rw [abs_of_pos hv], fun hv => by rw [abs_of_nonpos hv]; ring⟩
    · intro h1 h2
      simp only [stepMotion, addv]
      rw [if_neg h1, if_neg h2]
      exact ⟨rfl, rfl⟩
  · intro px py vx vy instance_id
    refine ⟨_, _, _, _, rfl, ?_, ?_, ?_, ?_, ?_, ?_⟩
    · intro h
      simp only [stepMotion, addv]
      rw [if_pos h]
    · intro h1 h2
      simp only [stepMotion, addv]
      rw [if_neg h1, if_pos h2]
    · intro h1 h2
      simp only [stepMotion, addv]
      rw [if_neg h1, if_neg h2]
    · intro h
      simp only [stepMotion, addv, smul]
      rw [if_pos h]
      exact ⟨rfl, rfl, rfl⟩
    · intro h1 h2
      simp only [stepMotion, addv, smul]
      rw [if_neg h1, if_pos h2]
      exact ⟨rfl, rfl, rfl⟩
    · intro h1 h2
      simp only [stepMotion, addv, smul]
      rw [if_neg h1, if_neg h2]
      exact ⟨rfl, rfl, rfl⟩

/-- Witness instantiating the amended C6 theorem: an obstacle breaching the
bottom margin with downward velocity is clamped to the margin and its
vertical velocity flips (this is the outward-pointing case). -/
theorem C6_wrap_and_bounce_witness :
    ∃ qx qy wy : ℚ,
      stepMotion oracle0 (.Obstacle (0, -0.6) (0, -0.01) 0 0 0.03 21 ⟨.Obstacle, 0⟩) =
        (.Obstacle (qx, qy) (0, wy) (0 + 0) 0 0.03 21 ⟨.Obstacle, 0⟩, false) ∧
      qy = -0.5 + 0.03 ∧ wy = -(-0.01 : ℚ) := by
  obtain ⟨qx, qy, wy, heq, _, _, _, hbot, _, _⟩ :=
    (C6_wrap_and_bounce oracle0).1 0 (-0.6) 0 (-0.01) 0 0 0.03 21 ⟨.Obstacle, 0⟩
  obtain ⟨hqy, _, hflip, _⟩ := hbot (by norm_num)
  exact ⟨qx, qy, wy, heq, hqy, hflip (by norm_num)⟩

/-- Counterexample to claim C6 as stated: an obstacle past the top margin
whose vertical velocity already points back into the field keeps that
velocity (the code takes `-|vy|`, not `-vy`): at position (0, 0.6) with
velocity (0, −0.01) and scale 0.03 the new y is clamped to the 0.47 margin
but the vertical velocity stays −0.01 instead of being sign-flipped to
0.01. -/
theorem C6_counterexample :
    stepMotion oracle0 (.Obstacle (0, 0.6) (0, -0.01) 0 0 0.03 21 ⟨.Obstacle, 0⟩) =
      (.Obstacle (0, 0.47) (0, -0.01) 0 0 0.03 21 ⟨.Obstacle, 0⟩, false) ∧
    ((0.6 : ℚ) + (-0.01) > 0.5 - 0.03) ∧
    ((-0.01 : ℚ) ≠ -(-0.01 : ℚ)) := by
  exact ⟨by with_unfolding_all rfl, by norm_num, by norm_num⟩

/-! ### Characterizing the inner pairwise scan -/

/-- Entity `j` is a different entity than `i` and an Obstacle colliding with
`object` (the trigger of the shot-dies and ship-hit rules). -/
def hitsObstacleB (objects : List Object) (i : ℕ) (object : Object) (j : ℕ) : Bool :=
  if i = j then false
  else
    match objects[j]? with
    | some other => other.is_obstacle && object.collide_with other
    | none => false

/-- Entity `j` is a different entity than `i` and a Shot colliding with
`object` (the trigger of the obstacle-damage rule). -/
def shotHitB (objects : List Object) (i : ℕ) (object : Object) (j : ℕ) : Bool :=
  if i = j then false
  else
    match objects[j]? with
    | some other => other.is_shot && object.collide_with other
    | none => false

/-- The number of Shots (at other indices) colliding with `object`: the
damage an Obstacle accumulates during its inner scan. -/
def shotHits (objects : List Object) (i : ℕ) (object : Object) : ℕ :=
  (List.range objects.length).countP (shotHitB objects i object)

theorem lt_length_of_getElem? {α : Type _} {l : List α} {i : ℕ} {a : α}
    (h : l[i]? = some a) : i < l.length := by
  by_contra hge
  rw [List.getElem?_eq_none (Nat.le_of_not_lt hge)] at h
  exact Option.noConfusion h

theorem innerScanStep_obstacle (objects : List Object) (i : ℕ) (object : Object)
    (h1 : object.is_shot = false) (h2 : object.is_ship = false)
    (h3 : object.is_obstacle = true) (acc : Bool × ℕ × Bool) (j : ℕ) :
    innerScanStep objects i object acc j =
      (acc.1, acc.2.1 + (if shotHitB objects i object j then 1 else 0), acc.2.2) := by
  unfold innerScanStep shotHitB
  by_cases hij : i = j
  · rw [if_pos hij, if_pos hij]
    simp
  · rw [if_neg hij, if_neg hij]
    cases hoth : objects[j]? with
    | none => simp
    | some other =>
        simp only [h1, h2, h3, Bool.false_and, Bool.true_and]
        rw [if_neg (by simp)]
        by_cases hc : (other.is_shot && object.collide_with other) = true
        · rw [if_pos hc, if_pos hc]
        · rw [if_neg hc, if_neg hc, if_neg (by simp)]
          simp

theorem innerScanStep_shot (objects : List Object) (i : ℕ) (object : Object)
    (h1 : object.is_shot = true) (h2 : object.is_ship = false)
    (h3 : object.is_obstacle = false) (acc : Bool × ℕ × Bool) (j : ℕ) :
    innerScanStep objects i object acc j =
      (acc.1 || hitsObstacleB objects i object j, acc.2.1, acc.2.2) := by
  unfold innerScanStep hitsObstacleB
  by_cases hij : i = j
  · rw [if_pos hij, if_pos hij]
    simp
  · rw [if_neg hij, if_neg hij]
    cases hoth : objects[j]? with
    | none => simp
    | some other =>
        simp only [h1, h2, h3, Bool.false_and, Bool.true_and]
        by_cases hc : (other.is_obstacle && object.collide_with other) = true
        · rw [if_pos hc, hc]
          simp
        · rw [if_neg hc, if_neg (by simp), if_neg (by simp)]
          simp only [Bool.not_eq_true] at hc
          rw [hc]
          simp

theorem innerScanStep_ship (objects : List Object) (i : ℕ) (object : Object)
    (h1 : object.is_shot = false) (h2 : object.is_ship = true)
    (h3 : object.is_obstacle = false) (acc : Bool × ℕ × Bool) (j : ℕ) :
    innerScanStep objects i object acc j =
      (acc.1, acc.2.1, acc.2.2 || hitsObstacleB objects i object j) := by
  unfold innerScanStep hitsObstacleB
  by_cases hij : i = j
  · rw [if_pos hij, if_pos hij]
    simp
  · rw [if_neg hij, if_neg hij]
    cases hoth : objects[j]? with
    | none => simp
    | some other =>
        simp only [h1, h2, h3, Bool.false_and, Bool.true_and]
        by_cases hc : (other.is_obstacle && object.collide_with other) = true
        · rw [if_neg (by simp), if_neg (by simp), if_pos hc, hc]
          simp
        · rw [if_neg (by simp), if_neg (by simp), if_neg hc]
          simp only [Bool.not_eq_true] at hc
          rw [hc]
          simp

theorem scan_fold_obstacle (objects : List Object) (i : ℕ) (object : Object)
    (h1 : object.is_shot = false) (h2 : object.is_ship = false)
    (h3 : object.is_obstacle = true) :
    ∀ (l : List ℕ) (acc : Bool × ℕ × Bool),
      l.foldl (innerScanStep objects i object) acc =
        (acc.1, acc.2.1 + l.countP (shotHitB objects i object), acc.2.2) := by
  intro l
  induction l with
  | nil => intro acc; simp
  | cons j l ih =>
      intro acc
      rw [List.foldl_cons, innerScanStep_obstacle objects i object h1 h2 h3, ih,
        List.countP_cons]
      by_cases hp : shotHitB objects i object j = true
      · rw [hp]
        simp only [Prod.mk.injEq, if_pos rfl, true_and, and_true, eq_self_iff_true]
        omega
      · simp only [Bool.not_eq_true] at hp
        rw [hp]
        simp

theorem scan_fold_shot (objects : List Object) (i : ℕ) (object : Object)
    (h1 : object.is_shot = true) (h2 : object.is_ship = false)
    (h3 : object.is_obstacle = false) :
    ∀ (l : List ℕ) (acc : Bool × ℕ × Bool),
      l.foldl (innerScanStep objects i object) acc =
        (acc.1 || l.any (hitsObstacleB objects i object), acc.2.1, acc.2.2) := by
  intro l
  induction l with
  | nil => intro acc; simp
  | cons j l ih =>
      intro acc
      rw [List.foldl_cons, innerScanStep_shot objects i object h1 h2 h3, ih,
        List.any_cons]
      simp [Bool.or_assoc]

theorem scan_fold_ship (objects : List Object) (i : ℕ) (object : Object)
    (h1 : object.is_shot = false) (h2 : object.is_ship = true)
    (h3 : object.is_obstacle = false) :
    ∀ (l : List ℕ) (acc : Bool × ℕ × Bool),
      l.foldl (innerScanStep objects i object) acc =
        (acc.1, acc.2.1, acc.2.2 || l.any (hitsObstacleB objects i object)) := by
  intro l
  induction l with
  | nil => intro acc; simp
  | cons j l ih =>
      intro acc
      rw [List.foldl_cons, innerScanStep_ship objects i object h1 h2 h3, ih,
        List.any_cons]
      simp [Bool.or_assoc]

/-- The inner scan of an Obstacle reports no shot-death, no ship-hit, and
damage equal to the number of colliding Shots. -/
theorem innerScan_obstacle (objects : List Object) (i : ℕ)
    (pos mot : Vec2) (ang spin sc : ℚ) (life : ℕ) (instance_id : InstanceID) :
    innerScan objects i (.Obstacle pos mot ang spin sc life instance_id) =
      (false, shotHits objects i (.Obstacle pos mot ang spin sc life instance_id), false) := by
  unfold innerScan shotHits
  rw [scan_fold_obstacle objects i (.Obstacle pos mot ang spin sc life instance_id)
    rfl rfl rfl]
  simp

/-- The inner scan of a Shot reports only whether it hit some Obstacle. -/
theorem innerScan_shot (objects : List Object) (i : ℕ)
    (pos : Vec2) (ang : ℚ) (instance_id : InstanceID) :
    innerScan objects i (.Shot pos ang instance_id) =
      ((List.range objects.length).any
        (hitsObstacleB objects i (.Shot pos ang instance_id)), 0, false) := by
  unfold innerScan
  rw [scan_fold_shot objects i (.Shot pos ang instance_id) rfl rfl rfl]
  simp

/-- The inner scan of the Ship reports only whether it touched some
Obstacle (the game-over trigger). -/
theorem innerScan_ship (objects : List Object) (i : ℕ)
    (pos mot : Vec2) (instance_id : InstanceID) :
    innerScan objects i (.Ship pos mot instance_id) =
      (false, 0, (List.range objects.length).any
        (hitsObstacleB objects i (.Ship pos mot instance_id))) := by
  unfold innerScan
  rw [scan_fold_ship objects i (.Ship pos mot instance_id) rfl rfl rfl]
  simp

/-! ### C2: obstacle damage is applied in place, before the loop advances -/

theorem kind_stepMotion (o : Oracle) (ob : Object) :
    ((stepMotion o ob).1).kind = ob.kind := by
  cases ob <;> rfl

theorem is_flag_eq_of_kind_eq {a b : Object} (h : a.kind = b.kind) :
    a.is_ship = b.is_ship ∧ a.is_shot = b.is_shot ∧ a.is_obstacle = b.is_obstacle := by
  cases a <;> cases b <;>
    simp_all [Object.kind, Object.is_ship, Object.is_shot, Object.is_obstacle]

theorem getElem?_kind_eq {l : List Object} {j : ℕ} {K : WhichMesh}
    (h : l[j]?.map Object.kind = some K) : ∃ ob, l[j]? = some ob ∧ ob.kind = K := by
  cases hok : l[j]? with
  | none => rw [hok] at h; exact absurd h (by simp)
  | some ob =>
      rw [hok] at h
      exact ⟨ob, rfl, by simpa using h⟩

/-- Full characterization of the outer-loop step at an Obstacle index:
damage application, dead-list push and score/spawn bumps on death, and the
structural facts (length kept, other entities untouched, this index stays
an Obstacle). -/
theorem objectLoopStep_obstacle_core (o : Oracle) (st : LoopState) (i : ℕ)
    (pos mot : Vec2) (ang spin sc : ℚ) (life : ℕ) (instance_id : InstanceID)
    (hobj : st.objects[i]? = some (.Obstacle pos mot ang spin sc life instance_id)) :
    ∃ st', objectLoopStep o st i = some st' ∧
      st'.objects[i]?.bind Object.lifeOf =
        some (life - shotHits st.objects i (.Obstacle pos mot ang spin sc life instance_id)) ∧
      st'.dead_object_indices =
        (if life - shotHits st.objects i (.Obstacle pos mot ang spin sc life instance_id) = 0
          then st.dead_object_indices ++ [i] else st.dead_object_indices) ∧
      st'.score =
        (if life - shotHits st.objects i (.Obstacle pos mot ang spin sc life instance_id) = 0
          then st.score + 1 else st.score) ∧
      st'.spawn_event = (st.spawn_event ||
        decide (life - shotHits st.objects i
          (.Obstacle pos mot ang spin sc life instance_id) = 0)) ∧
      st'.game_over = st.game_over ∧
      st'.objects.length = st.objects.length ∧
      (∀ j, j ≠ i → st'.objects[j]? = st.objects[j]?) ∧
      st'.objects[i]?.map Object.kind = some WhichMesh.Obstacle := by
  have hlt : i < st.objects.length := lt_length_of_getElem? hobj
  have hscan := innerScan_obstacle st.objects i pos mot ang spin sc life instance_id
  by_cases hd : 0 < shotHits st.objects i (.Obstacle pos mot ang spin sc life instance_id)
  · by_cases hz : life - shotHits st.objects i
        (.Obstacle pos mot ang spin sc life instance_id) = 0
    · refine ⟨⟨st.objects.set i (.Obstacle pos mot ang spin sc
        (life - shotHits st.objects i (.Obstacle pos mot ang spin sc life instance_id))
        instance_id), st.dead_object_indices ++ [i], true, st.game_over, st.score + 1⟩,
        ?_, ?_, ?_, ?_, ?_, rfl, ?_, ?_, ?_⟩
      · simp [objectLoopStep, hobj, hscan, hd, Object.isDeadObstacle, hz,
          Object.is_obstacle]
      · rw [show (⟨st.objects.set i (.Obstacle pos mot ang spin sc
            (life - shotHits st.objects i
              (.Obstacle pos mot ang spin sc life instance_id)) instance_id),
            st.dead_object_indices ++ [i], true, st.game_over, st.score + 1⟩ :
            LoopState).objects = st.objects.set i (.Obstacle pos mot ang spin sc
            (life - shotHits st.objects i
              (.Obstacle pos mot ang spin sc life instance_id)) instance_id) from rfl,
          List.getElem?_set_eq_of_lt _ hlt]
        rfl
      · simp [hz]
      · simp [hz]
      · simp [hz]
      · simp
      · intro j hj
        simp [List.getElem?_set_ne (show i ≠ j from fun h => hj h.symm)]
      · simp [List.getElem?_set_eq_of_lt _ hlt, Object.kind]
    · refine ⟨⟨(st.objects.set i (.Obstacle pos mot ang spin sc
        (life - shotHits st.objects i (.Obstacle pos mot ang spin sc life instance_id))
        instance_id)).set i (stepMotion o (.Obstacle pos mot ang spin sc
        (life - shotHits st.objects i (.Obstacle pos mot ang spin sc life instance_id))
        instance_id)).1, st.dead_object_indices, st.spawn_event, st.game_over,
        st.score⟩, ?_, ?_, ?_, ?_, ?_, rfl, ?_, ?_, ?_⟩
      · simp [objectLoopStep, hobj, hscan, hd, Object.isDeadObstacle, hz, stepMotion]
      · rw [show (⟨(st.objects.set i (.Obstacle pos mot ang spin sc
            (life - shotHits st.objects i
              (.Obstacle pos mot ang spin sc life instance_id)) instance_id)).set i
            (stepMotion o (.Obstacle pos mot ang spin sc (life - shotHits st.objects i
              (.Obstacle pos mot ang spin sc life instance_id)) instance_id)).1,
            st.dead_object_indices, st.spawn_event, st.game_over, st.score⟩ :
            LoopState).objects = (st.objects.set i (.Obstacle pos mot ang spin sc
            (life - shotHits st.objects i
              (.Obstacle pos mot ang spin sc life instance_id)) instance_id)).set i
            (stepMotion o (.Obstacle pos mot ang spin sc (life - shotHits st.objects i
              (.Obstacle pos mot ang spin sc life instance_id)) instance_id)).1
            from rfl,
          List.getElem?_set_eq_of_lt _ (by simpa using hlt)]
        simp [stepMotion, Object.lifeOf]
      · simp [hz]
      · simp [hz]
      · simp [hz]
      · simp
      · intro j hj
        simp [List.getElem?_set_ne (show i ≠ j from fun h => hj h.symm)]
      · simp only [List.getElem?_set_eq_of_lt _ (by simpa using hlt : i <
          ((st.objects.set i (.Obstacle pos mot ang spin sc (life - shotHits st.objects i
            (.Obstacle pos mot ang spin sc life instance_id)) instance_id))).length)]
        simp only [Option.map_some', kind_stepMotion]
        rfl
  · have h0 : shotHits st.objects i (.Obstacle pos mot ang spin sc life instance_id) = 0 :=
      Nat.eq_zero_of_not_pos hd
    by_cases hz : life = 0
    · refine ⟨⟨st.objects, st.dead_object_indices ++ [i], true, st.game_over,
        st.score + 1⟩, ?_, ?_, ?_, ?_, ?_, rfl, rfl, ?_, ?_⟩
      · simp only [objectLoopStep, hobj, hscan]
        rw [if_neg hd]
        simp [Object.isDeadObstacle, hz, Object.is_obstacle]
      · rw [show (⟨st.objects, st.dead_object_indices ++ [i], true, st.game_over,
            st.score + 1⟩ : LoopState).objects = st.objects from rfl, hobj]
        simp [Object.lifeOf, h0, hz]
      · simp [h0, hz]
      · simp [h0, hz]
      · simp [h0, hz]
      · intro j _
        rfl
      · rw [show (⟨st.objects, st.dead_object_indices ++ [i], true, st.game_over,
            st.score + 1⟩ : LoopState).objects = st.objects from rfl, hobj]
        rfl
    · refine ⟨⟨st.objects.set i (stepMotion o (.Obstacle pos mot ang spin sc life
        instance_id)).1, st.dead_object_indices, st.spawn_event, st.game_over,
        st.score⟩, ?_, ?_, ?_, ?_, ?_, rfl, ?_, ?_, ?_⟩
      · simp [objectLoopStep, hobj, hscan, h0, Object.isDeadObstacle, hz, stepMotion]
      · rw [show (⟨st.objects.set i (stepMotion o (.Obstacle pos mot ang spin sc life
            instance_id)).1, st.dead_object_indices, st.spawn_event, st.game_over,
            st.score⟩ : LoopState).objects = st.objects.set i (stepMotion o
            (.Obstacle pos mot ang spin sc life instance_id)).1 from rfl,
          List.getElem?_set_eq_of_lt _ hlt]
        simp [stepMotion, Object.lifeOf, h0]
      · simp [h0, hz]
      · simp [h0, hz]
      · simp [h0, hz]
      · simp
      · intro j hj
        simp [List.getElem?_set_ne (show i ≠ j from fun h => hj h.symm)]
      · simp only [List.getElem?_set_eq_of_lt _ hlt, Option.map_some', kind_stepMotion]
        rfl

/-- Claim C2: when the outer loop reaches an Obstacle, the damage counted
during its inner scan is exactly the number of Shots (at other indices)
colliding with it, and right after that inner scan — before the outer loop
advances — the Obstacle's life in the collection is the old life minus that
damage, saturating at zero (`Nat` truncated subtraction); the Obstacle's
index is pushed on the dead list (with the score and the spawn flag raised)
exactly when the resulting life is 0. -/
theorem C2_damage_accumulation (o : Oracle) (st : LoopState) (i : ℕ)
    (pos mot : Vec2) (ang spin sc : ℚ) (life : ℕ) (instance_id : InstanceID)
    (hobj : st.objects[i]? = some (.Obstacle pos mot ang spin sc life instance_id)) :
    ∃ st', objectLoopStep o st i = some st' ∧
      st'.objects[i]?.bind Object.lifeOf =
        some (life - shotHits st.objects i (.Obstacle pos mot ang spin sc life instance_id)) ∧
      st'.dead_object_indices =
        (if life - shotHits st.objects i (.Obstacle pos mot ang spin sc life instance_id) = 0
          then st.dead_object_indices ++ [i] else st.dead_object_indices) ∧
      st'.score =
        (if life - shotHits st.objects i (.Obstacle pos mot ang spin sc life instance_id) = 0
          then st.score + 1 else st.score) ∧
      st'.spawn_event = (st.spawn_event ||
        decide (life - shotHits st.objects i
          (.Obstacle pos mot ang spin sc life instance_id) = 0)) ∧
      st'.game_over = st.game_over := by
  obtain ⟨st', h1, h2, h3, h4, h5, h6, _, _, _⟩ :=
    objectLoopStep_obstacle_core o st i pos mot ang spin sc life instance_id hobj
  exact ⟨st', h1, h2, h3, h4, h5, h6⟩


/-- The concrete scene of the C2 witness: an Obstacle with life 21 and two
Shots both within collision range of it. -/
def two_shot_scene : List Object :=
  [.Obstacle (0, 0) (0, 0) 0 0 0.03 21 ⟨.Obstacle, 0⟩,
   .Shot (0.02, 0) 0 ⟨.Shot, 0⟩,
   .Shot (-0.02, 0) 0 ⟨.Shot, 1⟩]

/-- Witness instantiating the C2 theorem: the obstacle of `two_shot_scene`
is hit by its two shots in the same pass, loses exactly 2 life (21 → 19),
and is not marked dead. -/
theorem C2_damage_accumulation_witness :
    two_shot_scene[0]? = some (.Obstacle (0, 0) (0, 0) 0 0 0.03 21 ⟨.Obstacle, 0⟩) ∧
    shotHits two_shot_scene 0 (.Obstacle (0, 0) (0, 0) 0 0 0.03 21 ⟨.Obstacle, 0⟩) = 2 ∧
    ∃ st', objectLoopStep oracle0 ⟨two_shot_scene, [], false, false, 0⟩ 0 = some st' ∧
      st'.objects[0]?.bind Object.lifeOf = some 19 ∧
      st'.dead_object_indices = [] := by
  have hs : shotHits two_shot_scene 0
      (.Obstacle (0, 0) (0, 0) 0 0 0.03 21 ⟨.Obstacle, 0⟩) = 2 := by
    with_unfolding_all rfl
  refine ⟨rfl, hs, ?_⟩
  obtain ⟨st', h1, h2, h3, _, _, _⟩ := C2_damage_accumulation oracle0
    ⟨two_shot_scene, [], false, false, 0⟩ 0 (0, 0) (0, 0) 0 0 0.03 21 ⟨.Obstacle, 0⟩ rfl
  have hproj : (⟨two_shot_scene, [], false, false, 0⟩ : LoopState).objects =
      two_shot_scene := rfl
  rw [hproj, hs] at h2 h3
  rw [if_neg (by norm_num)] at h3
  exact ⟨st', h1, h2, h3⟩

/-! ### C7: dead removal keeps survivors in order and frees their slots -/

/-- The entities of `objects` whose position (starting at `i`) is not listed
in `dead`, in their original order. -/
def survivorsAux (dead : List ℕ) : ℕ → List Object → List Object
  | _, [] => []
  | i, ob :: rest =>
      if i ∈ dead then survivorsAux dead (i + 1) rest
      else ob :: survivorsAux dead (i + 1) rest

/-- The entities of `objects` whose index is not listed in `dead`, in their
original order. -/
def survivors (objects : List Object) (dead : List ℕ) : List Object :=
  survivorsAux dead 0 objects

theorem survivorsAux_of_lt (dead : List ℕ) :
    ∀ (objects : List Object) (off : ℕ), (∀ d ∈ dead, d < off) →
      survivorsAux dead off objects = objects := by
  intro objects
  induction objects with
  | nil => intro off _; rfl
  | cons ob rest ih =>
      intro off hoff
      simp only [survivorsAux]
      rw [if_neg (fun hmem => absurd (hoff off hmem) (lt_irrefl off)),
        ih (off + 1) (fun d hd => Nat.lt_succ_of_lt (hoff d hd))]

theorem survivorsAux_erase (ds : List ℕ) (m : ℕ) (hds : ∀ d ∈ ds, d < m) :
    ∀ (objects : List Object) (off : ℕ), off ≤ m → m - off < objects.length →
      survivorsAux (ds ++ [m]) off objects =
        survivorsAux ds off (objects.eraseIdx (m - off)) := by
  intro objects
  induction objects with
  | nil =>
      intro off _ h
      simp at h
  | cons ob rest ih =>
      intro off hle hlt
      by_cases hoff : off = m
      · subst hoff
        rw [Nat.sub_self, show (ob :: rest).eraseIdx 0 = rest from rfl]
        simp only [survivorsAux]
        rw [if_pos (by simp), survivorsAux_of_lt ds rest off hds,
          survivorsAux_of_lt (ds ++ [off]) rest (off + 1) ?side]
        case side =>
          intro d hd
          rcases List.mem_append.mp hd with h | h
          · exact Nat.lt_succ_of_lt (hds d h)
          · rw [List.mem_singleton.mp h]
            exact Nat.lt_succ_self off
      · have hlt2 : off < m := Nat.lt_of_le_of_ne hle hoff
        have hsub : m - off = (m - (off + 1)) + 1 := by omega
        have hb : m - (off + 1) < rest.length := by
          rw [List.length_cons] at hlt
          omega
        rw [hsub, List.eraseIdx_cons_succ]
        simp only [survivorsAux]
        by_cases hd : off ∈ ds
        · rw [if_pos (List.mem_append.mpr (Or.inl hd)), if_pos hd,
            ih (off + 1) (by omega) hb]
        · rw [if_neg ?nomem, if_neg hd, ih (off + 1) (by omega) hb]
          case nomem =>
            intro hmem
            rcases List.mem_append.mp hmem with h | h
            · exact hd h
            · exact hoff (List.mem_singleton.mp h)

/-- Freeing one slot never changes a free bitmap's length. -/
theorem remove_preserves_unused_length (t : InstanceTable) (H : InstanceID)
    (m : WhichMesh) :
    ((t.remove_instance H).get m).unused_instances.length =
      (t.get m).unused_instances.length := by
  by_cases hm : m = H.mesh
  · rw [hm, remove_instance_get_self]
    simp
  · rw [remove_instance_get_ne _ _ _ hm]

/-- A free mark that is set stays set through any further free. -/
theorem unusedAt_remove_mono (t : InstanceTable) (H K : InstanceID)
    (h : unusedAt t K = true) : unusedAt (t.remove_instance H) K = true := by
  by_cases hk : K = H
  · subst hk
    unfold unusedAt
    rw [remove_instance_get_self]
    simp only [List.getD_eq_getElem?_getD]
    by_cases hlt : K.instance_index < (t.get K.mesh).unused_instances.length
    · rw [List.getElem?_set_eq_of_lt _ hlt]
      rfl
    · rw [List.set_eq_of_length_le (Nat.le_of_not_lt hlt)]
      unfold unusedAt at h
      rw [List.getD_eq_getElem?_getD] at h
      exact h
  · rw [unusedAt_remove_ne _ _ _ hk]
    exact h

/-- A free mark that is set stays set through the whole removal fold. -/
theorem unusedAt_foldl_mono (K : InstanceID) :
    ∀ (idxs : List ℕ) (acc : List Object × InstanceTable),
      unusedAt acc.2 K = true → unusedAt (idxs.foldl removeDeadStep acc).2 K = true := by
  intro idxs
  induction idxs with
  | nil => intro acc h; exact h
  | cons j rest ih =>
      intro acc h
      rw [List.foldl_cons]
      apply ih
      cases hj : acc.1[j]? with
      | none => simpa [removeDeadStep, hj] using h
      | some obj =>
          simp only [removeDeadStep, hj]
          exact unusedAt_remove_mono _ _ _ h

/-- The full specification of the dead-removal pass for a strictly sorted,
in-bounds index list: the surviving collection is the original minus the
listed indices (order preserved), each listed entity's slot ends up free,
and the free mark of any handle owned by no listed entity is unchanged. -/
theorem removeDead_spec :
    ∀ (dead : List ℕ) (objects : List Object) (t : InstanceTable),
      List.Sorted (· < ·) dead → (∀ i ∈ dead, i < objects.length) →
      (removeDead objects t dead).1 = survivors objects dead ∧
      (∀ i ∈ dead, ∀ obj, objects[i]? = some obj →
        obj.instance_id.instance_index <
          (t.get obj.instance_id.mesh).unused_instances.length →
        unusedAt (removeDead objects t dead).2 obj.instance_id = true) ∧
      (∀ K : InstanceID,
        (∀ i ∈ dead, ∀ obj, objects[i]? = some obj → obj.instance_id ≠ K) →
        unusedAt (removeDead objects t dead).2 K = unusedAt t K) := by
  intro dead
  induction dead using List.reverseRecOn with
  | nil =>
      intro objects t _ _
      refine ⟨?_, ?_, ?_⟩
      · rw [show removeDead objects t [] = (objects, t) from rfl]
        rw [survivors, survivorsAux_of_lt [] objects 0 (by simp)]
      · intro i hi
        simp at hi
      · intro K _
        rfl
  | append_singleton ds m ih =>
      intro objects t hsorted hbound
      obtain ⟨hsds, _, hp3⟩ := List.pairwise_append.mp hsorted
      have hdm : ∀ d ∈ ds, d < m := fun d hd => hp3 d hd m (List.mem_singleton_self m)
      have hmlt : m < objects.length := hbound m (List.mem_append.mpr (Or.inr (List.mem_singleton_self m)))
      have hm : objects[m]? = some objects[m] := List.getElem?_eq_getElem hmlt
      have hstep : removeDeadStep (objects, t) m =
          (objects.eraseIdx m, t.remove_instance objects[m].instance_id) := by
        simp [removeDeadStep, hm]
      have hrd : removeDead objects t (ds ++ [m]) =
          ds.reverse.foldl removeDeadStep
            (objects.eraseIdx m, t.remove_instance objects[m].instance_id) := by
        unfold removeDead
        rw [List.Sorted.insertionSort_eq (hsorted.imp le_of_lt), List.reverse_append,
          show ([m] : List ℕ).reverse = [m] from rfl, List.singleton_append,
          List.foldl_cons, hstep]
      have hrd2 : removeDead (objects.eraseIdx m)
          (t.remove_instance objects[m].instance_id) ds =
          ds.reverse.foldl removeDeadStep
            (objects.eraseIdx m, t.remove_instance objects[m].instance_id) := by
        unfold removeDead
        rw [List.Sorted.insertionSort_eq (hsds.imp le_of_lt)]
      have hlen' : (objects.eraseIdx m).length = objects.length - 1 :=
        List.length_eraseIdx_of_lt hmlt
      have hIH := ih (objects.eraseIdx m) (t.remove_instance objects[m].instance_id)
        hsds (by
          intro i hi
          rw [hlen']
          have := hdm i hi
          omega)
      refine ⟨?_, ?_, ?_⟩
      · rw [hrd, ← hrd2, hIH.1, survivors, survivors,
          survivorsAux_erase ds m hdm objects 0 (Nat.zero_le m) (by simpa using hmlt)]
        rw [Nat.sub_zero]
      · intro i hi obj hobj hb
        rcases List.mem_append.mp hi with hin | hin
        · have hilt : i < m := hdm i hin
          rw [hrd, ← hrd2]
          exact hIH.2.1 i hin obj
            (by rw [List.getElem?_eraseIdx_of_lt objects m i hilt]; exact hobj)
            (by rw [remove_preserves_unused_length]; exact hb)
        · have him : i = m := List.mem_singleton.mp hin
          rw [him] at hobj
          rw [hm] at hobj
          have hoeq : objects[m] = obj := Option.some.inj hobj
          rw [← hoeq] at hb ⊢
          rw [hrd]
          exact unusedAt_foldl_mono _ _ _
            (unusedAt_remove_self t objects[m].instance_id hb)
      · intro K hK
        rw [hrd, ← hrd2]
        have hne : objects[m].instance_id ≠ K :=
          hK m (List.mem_append.mpr (Or.inr (List.mem_singleton_self m))) objects[m] hm
        rw [hIH.2.2 K (by
          intro i hi obj hobj
          have hilt : i < m := hdm i hi
          rw [List.getElem?_eraseIdx_of_lt objects m i hilt] at hobj
          exact hK i (List.mem_append.mpr (Or.inl hi)) obj hobj)]
        exact unusedAt_remove_ne t objects[m].instance_id K hne.symm

/-- Claim C7: after the frame's pass, the dead entities (a strictly
increasing in-bounds index list, processed in descending order by the
removal loop) are removed from the collection with their instance slots
freed in the same step, while the surviving entities keep their original
relative order and any handle belonging to no dead entity keeps its free
mark (slots of survivors stay allocated). -/
theorem C7_dead_removal (objects : List Object) (t : InstanceTable) (dead : List ℕ)
    (hsorted : List.Sorted (· < ·) dead) (hbound : ∀ i ∈ dead, i < objects.length) :
    (removeDead objects t dead).1 = survivors objects dead ∧
    (∀ i ∈ dead, ∀ obj, objects[i]? = some obj →
      obj.instance_id.instance_index <
        (t.get obj.instance_id.mesh).unused_instances.length →
      unusedAt (removeDead objects t dead).2 obj.instance_id = true) ∧
    (∀ K : InstanceID,
      (∀ i ∈ dead, ∀ obj, objects[i]? = some obj → obj.instance_id ≠ K) →
      unusedAt (removeDead objects t dead).2 K = unusedAt t K) :=
  removeDead_spec dead objects t hsorted hbound

/-- The three-entity scene of the C7 witness. -/
def three_scene : List Object :=
  [.Ship (0, 0) (0, 0) ⟨.Ship, 0⟩,
   .Obstacle (0.5, 0) (0, 0) 0 0 0.03 21 ⟨.Obstacle, 0⟩,
   .Shot (-0.5, 0) 0 ⟨.Shot, 0⟩]

/-- A table with one allocated slot per mesh class, for the C7 witness. -/
def three_table : InstanceTable :=
  ⟨⟨[ObjectInstancePod.zeroed], [false]⟩,
   ⟨[ObjectInstancePod.zeroed], [false]⟩,
   ⟨[ObjectInstancePod.zeroed], [false]⟩⟩

/-- Witness instantiating the C7 theorem: removing dead indices 1 and 2 of
`three_scene` leaves exactly the ship. -/
theorem C7_dead_removal_witness :
    List.Sorted (· < ·) [1, 2] ∧
    (removeDead three_scene three_table [1, 2]).1 =
      [Object.Ship (0, 0) (0, 0) ⟨.Ship, 0⟩] := by
  have hs : List.Sorted (· < ·) [1, 2] := by decide
  refine ⟨hs, ?_⟩
  rw [(C7_dead_removal three_scene three_table [1, 2] hs (by decide)).1]
  with_unfolding_all rfl

/-! ### One outer-loop step, characterized per entity variant -/

/-- The outer loop at a Ship index: no death, no damage, no score change;
the Ship just moves, and game over is raised when the scan found an
Obstacle in contact. -/
theorem objectLoopStep_ship (o : Oracle) (st : LoopState) (i : ℕ) (p m : Vec2)
    (instance_id : InstanceID)
    (hobj : st.objects[i]? = some (.Ship p m instance_id)) :
    objectLoopStep o st i =
      some ⟨st.objects.set i (stepMotion o (.Ship p m instance_id)).1,
        st.dead_object_indices, st.spawn_event,
        st.game_over || (List.range st.objects.length).any
          (hitsObstacleB st.objects i (.Ship p m instance_id)),
        st.score⟩ := by
  have hscan := innerScan_ship st.objects i p m instance_id
  have hm2 : (stepMotion o (.Ship p m instance_id)).2 = false := rfl
  simp [objectLoopStep, hobj, hscan, Object.isDeadObstacle, hm2]

/-- The outer loop at a Shot index: if the scan found an Obstacle in
contact the Shot is marked dead without moving; otherwise it moves and is
marked dead exactly when it left the play bounds. -/
theorem objectLoopStep_shot (o : Oracle) (st : LoopState) (i : ℕ) (p : Vec2) (a : ℚ)
    (instance_id : InstanceID)
    (hobj : st.objects[i]? = some (.Shot p a instance_id)) :
    objectLoopStep o st i =
      some (if (List.range st.objects.length).any
          (hitsObstacleB st.objects i (.Shot p a instance_id)) then
        ⟨st.objects, st.dead_object_indices ++ [i], st.spawn_event, st.game_over, st.score⟩
      else
        ⟨st.objects.set i (stepMotion o (.Shot p a instance_id)).1,
          if (stepMotion o (.Shot p a instance_id)).2 then st.dead_object_indices ++ [i]
          else st.dead_object_indices,
          st.spawn_event, st.game_over, st.score⟩) := by
  have hscan := innerScan_shot st.objects i p a instance_id
  by_cases hdies : (List.range st.objects.length).any
      (hitsObstacleB st.objects i (.Shot p a instance_id)) = true
  · simp [objectLoopStep, hobj, hscan, hdies, Object.isDeadObstacle, Object.is_obstacle]
  · simp only [Bool.not_eq_true] at hdies
    simp [objectLoopStep, hobj, hscan, hdies, Object.isDeadObstacle]

/-- The outer loop at an Obstacle index, weakly characterized: the
collection keeps its length and every entity's variant; either nothing is
pushed on the dead list and the score is unchanged, or exactly this index
is pushed and the score grows by one. -/
theorem objectLoopStep_obstacle_spec (o : Oracle) (st : LoopState) (i : ℕ)
    (pos mot : Vec2) (ang spin sc : ℚ) (life : ℕ) (instance_id : InstanceID)
    (hobj : st.objects[i]? = some (.Obstacle pos mot ang spin sc life instance_id)) :
    ∃ st' : LoopState, objectLoopStep o st i = some st' ∧
      st'.objects.length = st.objects.length ∧
      (∀ j : ℕ, st'.objects[j]?.map Object.kind = st.objects[j]?.map Object.kind) ∧
      ((st'.dead_object_indices = st.dead_object_indices ∧ st'.score = st.score) ∨
       (st'.dead_object_indices = st.dead_object_indices ++ [i] ∧
         st'.score = st.score + 1)) := by
  obtain ⟨st', heq, _, hdead, hscore, _, _, hlen, hother, hkindi⟩ :=
    objectLoopStep_obstacle_core o st i pos mot ang spin sc life instance_id hobj
  refine ⟨st', heq, hlen, ?_, ?_⟩
  · intro j
    by_cases hj : j = i
    · rw [hj, hkindi, hobj]
      rfl
    · rw [hother j hj]
  · by_cases hz : life - shotHits st.objects i
        (.Obstacle pos mot ang spin sc life instance_id) = 0
    · rw [if_pos hz] at hdead hscore
      exact Or.inr ⟨hdead, hscore⟩
    · rw [if_neg hz] at hdead hscore
      exact Or.inl ⟨hdead, hscore⟩

/-- One outer-loop step, any variant: it never aborts, keeps the
collection's length and every entity's variant, and either leaves the dead
list and score unchanged or pushes exactly the current index — never for
the Ship, with a score bump exactly for an Obstacle. -/
theorem objectLoopStep_spec (o : Oracle) (st : LoopState) (i : ℕ) (obj : Object)
    (hobj : st.objects[i]? = some obj) :
    ∃ st' : LoopState, objectLoopStep o st i = some st' ∧
      st'.objects.length = st.objects.length ∧
      (∀ j : ℕ, st'.objects[j]?.map Object.kind = st.objects[j]?.map Object.kind) ∧
      ((st'.dead_object_indices = st.dead_object_indices ∧ st'.score = st.score) ∨
       (st'.dead_object_indices = st.dead_object_indices ++ [i] ∧ obj.is_ship = false ∧
        (obj.is_obstacle = true → st'.score = st.score + 1) ∧
        (obj.is_obstacle = false → st'.score = st.score))) := by
  have hlt : i < st.objects.length := lt_length_of_getElem? hobj
  cases obj with
  | Ship p m instance_id =>
      refine ⟨_, objectLoopStep_ship o st i p m instance_id hobj, by simp, ?_,
        Or.inl ⟨rfl, rfl⟩⟩
      intro j
      by_cases hj : j = i
      · subst hj
        simp only [List.getElem?_set_eq_of_lt _ hlt, hobj, Option.map_some',
          kind_stepMotion]
      · simp only [List.getElem?_set_ne (fun h => hj h.symm)]
  | Shot p a instance_id =>
      have hstep := objectLoopStep_shot o st i p a instance_id hobj
      by_cases hdies : (List.range st.objects.length).any
          (hitsObstacleB st.objects i (.Shot p a instance_id)) = true
      · rw [if_pos hdies] at hstep
        exact ⟨_, hstep, rfl, fun j => rfl, Or.inr ⟨rfl, rfl,
          fun h => absurd h (by simp [Object.is_obstacle]), fun _ => rfl⟩⟩
      · rw [if_neg hdies] at hstep
        by_cases hoob : (stepMotion o (.Shot p a instance_id)).2 = true
        · rw [if_pos hoob] at hstep
          refine ⟨_, hstep, by simp, ?_, Or.inr ⟨rfl, rfl,
            fun h => absurd h (by simp [Object.is_obstacle]), fun _ => rfl⟩⟩
          intro j
          by_cases hj : j = i
          · subst hj
            simp only [List.getElem?_set_eq_of_lt _ hlt, hobj, Option.map_some',
              kind_stepMotion]
          · simp only [List.getElem?_set_ne (fun h => hj h.symm)]
        · simp only [Bool.not_eq_true] at hoob
          rw [if_neg (by simp [hoob])] at hstep
          refine ⟨_, hstep, by simp, ?_, Or.inl ⟨rfl, rfl⟩⟩
          intro j
          by_cases hj : j = i
          · subst hj
            simp only [List.getElem?_set_eq_of_lt _ hlt, hobj, Option.map_some',
              kind_stepMotion]
          · simp only [List.getElem?_set_ne (fun h => hj h.symm)]
  | Obstacle pos mot ang spin sc0 life instance_id =>
      obtain ⟨st', heq, hlen, hkinds, hcase⟩ :=
        objectLoopStep_obstacle_spec o st i pos mot ang spin sc0 life instance_id hobj
      refine ⟨st', heq, hlen, hkinds, ?_⟩
      rcases hcase with ⟨h1, h2⟩ | ⟨h1, h2⟩
      · exact Or.inl ⟨h1, h2⟩
      · exact Or.inr ⟨h1, rfl, fun _ => h2,
          fun h => absurd h (by simp [Object.is_obstacle])⟩

/-- Invariant carried through the whole `'object_loop` fold over the first
`k` indices: the pass always succeeds, keeps the collection's length and
every entity's variant, tracks the score as the initial score plus one per
dead Obstacle, and builds a strictly increasing dead list of processed
non-Ship indices. -/
theorem object_loop_partial_spec (o : Oracle) (objects : List Object) (go : Bool)
    (sc : ℕ) :
    ∀ k, k ≤ objects.length →
      ∃ st : LoopState,
        (List.range k).foldl (fun acc i => acc.bind fun s => objectLoopStep o s i)
          (some ⟨objects, [], false, go, sc⟩) = some st ∧
        st.objects.length = objects.length ∧
        (∀ j : ℕ, st.objects[j]?.map Object.kind = objects[j]?.map Object.kind) ∧
        st.score = sc + st.dead_object_indices.countP
          (fun j => objects[j]?.any Object.is_obstacle) ∧
        List.Sorted (· < ·) st.dead_object_indices ∧
        (∀ j ∈ st.dead_object_indices, j < k) ∧
        (∀ j ∈ st.dead_object_indices,
          objects[j]?.any (fun ob => !ob.is_ship) = true) := by
  intro k
  induction k with
  | zero =>
      intro _
      exact ⟨⟨objects, [], false, go, sc⟩, rfl, rfl, fun j => rfl, by simp,
        List.Pairwise.nil, by simp, by simp⟩
  | succ k ih =>
      intro hk1
      obtain ⟨st, heq, hlen, hkind, hscore, hsort, hbnd, hns⟩ :=
        ih (Nat.le_of_succ_le hk1)
      have hklen : k < objects.length := hk1
      have hklen' : k < st.objects.length := by rw [hlen]; exact hklen
      have hobj : st.objects[k]? = some st.objects[k] := List.getElem?_eq_getElem hklen'
      obtain ⟨st', heq', hlen', hkind', hpush⟩ :=
        objectLoopStep_spec o st k st.objects[k] hobj
      have hfold : (List.range (k + 1)).foldl
          (fun acc i => acc.bind fun s => objectLoopStep o s i)
          (some ⟨objects, [], false, go, sc⟩) = some st' := by
        rw [List.range_succ, List.foldl_append, heq]
        simp only [List.foldl_cons, List.foldl_nil, Option.some_bind]
        exact heq'
      have hkk : objects[k]?.map Object.kind = some (st.objects[k]).kind := by
        rw [← hkind k, hobj]
        rfl
      obtain ⟨ob0, hob0, hob0k⟩ := getElem?_kind_eq hkk
      have hflags := is_flag_eq_of_kind_eq hob0k
      refine ⟨st', hfold, by rw [hlen', hlen], fun j => by rw [hkind' j, hkind j],
        ?_, ?_, ?_, ?_⟩
      · rcases hpush with ⟨hde, hsc⟩ | ⟨hde, _, hob1, hob00⟩
        · rw [hsc, hde, hscore]
        · rw [hde, List.countP_append, List.countP_cons, List.countP_nil]
          by_cases hobk : (st.objects[k]).is_obstacle = true
          · rw [hob1 hobk, hscore]
            have hpred : (objects[k]?.any Object.is_obstacle) = true := by
              rw [hob0]
              simpa [Option.any] using hflags.2.2.trans hobk
            rw [hpred]
            simp
            try omega
          · simp only [Bool.not_eq_true] at hobk
            rw [hob00 hobk, hscore]
            have hpred : (objects[k]?.any Object.is_obstacle) = false := by
              rw [hob0]
              simpa [Option.any] using hflags.2.2.trans hobk
            rw [hpred]
            simp
      · rcases hpush with ⟨hde, _⟩ | ⟨hde, _, _, _⟩
        · rw [hde]; exact hsort
        · rw [hde]
          refine List.pairwise_append.mpr ⟨hsort, List.pairwise_singleton _ _, ?_⟩
          intro a ha b hb
          rw [List.mem_singleton.mp hb]
          exact hbnd a ha
      · rcases hpush with ⟨hde, _⟩ | ⟨hde, _, _, _⟩
        · rw [hde]
          exact fun j hj => Nat.lt_succ_of_lt (hbnd j hj)
        · rw [hde]
          intro j hj
          rcases List.mem_append.mp hj with h | h
          · exact Nat.lt_succ_of_lt (hbnd j h)
          · rw [List.mem_singleton.mp h]
            exact Nat.lt_succ_self k
      · rcases hpush with ⟨hde, _⟩ | ⟨hde, hnship, _, _⟩
        · rw [hde]; exact hns
        · rw [hde]
          intro j hj
          rcases List.mem_append.mp hj with h | h
          · exact hns j h
          · rw [List.mem_singleton.mp h, hob0]
            simp only [Option.any]
            rw [hflags.1, hnship]
            rfl

/-- The whole collision/motion pass: success plus the carried invariant. -/
theorem object_loop_spec (o : Oracle) (objects : List Object) (go : Bool) (sc : ℕ) :
    ∃ ls : LoopState, object_loop o objects go sc = some ls ∧
      ls.objects.length = objects.length ∧
      (∀ j : ℕ, ls.objects[j]?.map Object.kind = objects[j]?.map Object.kind) ∧
      ls.score = sc + ls.dead_object_indices.countP
        (fun j => objects[j]?.any Object.is_obstacle) ∧
      List.Sorted (· < ·) ls.dead_object_indices ∧
      (∀ j ∈ ls.dead_object_indices, j < objects.length) ∧
      (∀ j ∈ ls.dead_object_indices,
        objects[j]?.any (fun ob => !ob.is_ship) = true) :=
  object_loop_partial_spec o objects go sc objects.length (Nat.le_refl _)

/-! ### C8: the score only grows, by one per obstacle death, except restart -/

/-- The ship-control step leaves everything but the Ship's motion alone. -/
theorem ship_control_frozen (o : Oracle) (st st1 : GameState)
    (h : ship_control o st = some st1) :
    st1.score = st.score ∧ st1.game_over = st.game_over ∧
    st1.instance_table = st.instance_table ∧ st1.shooting = st.shooting ∧
    st1.shooting_delay = st.shooting_delay ∧
    st1.cursor_position = st.cursor_position := by
  unfold ship_control at h
  cases hobs : st.objects with
  | nil => rw [hobs] at h; exact Option.noConfusion h
  | cons ob rest =>
      cases ob with
      | Ship p m instance_id =>
          rw [hobs] at h
          have := Option.some.inj h
          subst this
          exact ⟨rfl, rfl, rfl, rfl, rfl, rfl⟩
      | Shot p a instance_id => rw [hobs] at h; exact Option.noConfusion h
      | Obstacle p m a r s l instance_id => rw [hobs] at h; exact Option.noConfusion h

/-- The firing step leaves the score, the game-over flag and the cursor
alone. -/
theorem firing_frozen (o : Oracle) (st st1 : GameState)
    (h : firing o st = some st1) :
    st1.score = st.score ∧ st1.game_over = st.game_over ∧
    st1.cursor_position = st.cursor_position := by
  cases hhd : st.objects.head? with
  | none =>
      simp only [firing, hhd] at h
      split_ifs at h <;>
        first
          | exact Option.noConfusion h
          | (have heq2 := Option.some.inj h; subst heq2; exact ⟨rfl, rfl, rfl⟩)
  | some ob =>
      cases ob <;>
        simp only [firing, hhd] at h <;>
        split_ifs at h <;>
          first
            | exact Option.noConfusion h
            | (have heq2 := Option.some.inj h; subst heq2; exact ⟨rfl, rfl, rfl⟩)

/-- Claim C8: across every event the score never decreases except that a
restart request (left click while game over) resets it to 0; and within a
frame's collision pass the score grows by exactly one per Obstacle on the
dead list (Shot deaths and the Ship's game-over contact add nothing). -/
theorem C8_score_monotonic (o : Oracle) (supply : ℕ → ObstacleParams) :
    (∀ (st st' : GameState) (ev : GEvent), handle_event o supply st ev = some st' →
      st.score ≤ st'.score ∨
        (st.game_over = true ∧ ev = GEvent.leftMouse true ∧ st'.score = 0)) ∧
    (∀ (objects : List Object) (go : Bool) (sc : ℕ) (ls : LoopState),
      object_loop o objects go sc = some ls →
      ls.score = sc + ls.dead_object_indices.countP
        (fun j => objects[j]?.any Object.is_obstacle)) ∧
    (∀ st : GameState, st.game_over = true →
      ∀ st', handle_event o supply st (GEvent.leftMouse true) = some st' →
        st'.score = 0) := by
  have hloop : ∀ (objects : List Object) (go : Bool) (sc : ℕ) (ls : LoopState),
      object_loop o objects go sc = some ls →
      ls.score = sc + ls.dead_object_indices.countP
        (fun j => objects[j]?.any Object.is_obstacle) := by
    intro objects go sc ls h
    obtain ⟨ls', heq, _, _, hscore, _, _, _⟩ := object_loop_spec o objects go sc
    rw [heq] at h
    have := Option.some.inj h
    subst this
    exact hscore
  refine ⟨?_, hloop, ?_⟩
  · intro st st' ev h
    cases ev with
    | cursorMoved p =>
        have := Option.some.inj h
        subst this
        exact Or.inl (Nat.le_of_eq rfl)
    | rightMousePressed =>
        simp only [handle_event] at h
        split_ifs at h
        · have := Option.some.inj h
          subst this
          exact Or.inl (Nat.le_refl _)
        · cases hobs : st.objects with
          | nil => rw [hobs] at h; exact Option.noConfusion h
          | cons ob rest =>
              cases ob with
              | Ship p m instance_id =>
                  rw [hobs] at h
                  have := Option.some.inj h
                  subst this
                  exact Or.inl (Nat.le_of_eq rfl)
              | Shot p a instance_id => rw [hobs] at h; exact Option.noConfusion h
              | Obstacle p m a r s l instance_id =>
                  rw [hobs] at h; exact Option.noConfusion h
    | leftMouse pressed =>
        simp only [handle_event] at h
        split_ifs at h with h1 h2
        · have := Option.some.inj h
          subst this
          exact Or.inl (Nat.le_of_eq rfl)
        · have hgo : st.game_over = true := by
            cases hb : st.game_over
            · exact absurd hb h1
            · rfl
          have := Option.some.inj h
          subst this
          exact Or.inr ⟨hgo, by rw [h2], rfl⟩
        · have := Option.some.inj h
          subst this
          exact Or.inl (Nat.le_refl _)
    | mainEventsCleared =>
        simp only [handle_event] at h
        obtain ⟨stf, hadv, hrefresh⟩ := Option.map_eq_some'.mp h
        have hsc : st'.score = stf.score := by rw [← hrefresh]; rfl
        unfold advance_frame at hadv
        split_ifs at hadv
        · have := Option.some.inj hadv
          subst this
          exact Or.inl (Nat.le_of_eq hsc.symm)
        · obtain ⟨st1, h1, hrest⟩ := Option.bind_eq_some.mp hadv
          obtain ⟨st2, h2, hrest2⟩ := Option.bind_eq_some.mp hrest
          obtain ⟨ls, h3, h4⟩ := Option.bind_eq_some.mp hrest2
          have hfinal : stf.score = ls.score := by
            have := Option.some.inj h4
            subst this
            rfl
          have hls := hloop st2.objects st2.game_over st2.score ls h3
          have hs2 : st2.score = st1.score := (firing_frozen o st1 st2 h2).1
          have hs1 : st1.score = st.score := (ship_control_frozen o st st1 h1).1
          refine Or.inl ?_
          rw [hsc, hfinal, hls, hs2, hs1]
          exact Nat.le_add_right _ _
  · intro st hgo st' h
    simp only [handle_event, hgo] at h
    rw [if_neg (fun hc => Bool.noConfusion hc), if_pos trivial] at h
    have := Option.some.inj h
    subst this
    rfl

/-! ### C10: the Ship is always entity 0 and is unique -/

/-- The collection's head is the Ship and there is exactly one Ship. -/
def ship_first (objects : List Object) : Prop :=
  objects.head?.any Object.is_ship = true ∧
  objects.countP Object.is_ship = 1

theorem ship_first_iff (objects : List Object) :
    ship_first objects ↔ ∃ (p m : Vec2) (instance_id : InstanceID) (rest : List Object),
      objects = .Ship p m instance_id :: rest ∧
      rest.countP Object.is_ship = 0 := by
  constructor
  · rintro ⟨h1, h2⟩
    cases objects with
    | nil => simp at h1
    | cons ob rest =>
        cases ob with
        | Ship p m instance_id =>
            refine ⟨p, m, instance_id, rest, rfl, ?_⟩
            rw [List.countP_cons] at h2
            simp only [Object.is_ship] at h2
            rw [if_pos trivial] at h2
            omega
        | Shot p a instance_id => simp [Object.is_ship] at h1
        | Obstacle p m a r s l instance_id => simp [Object.is_ship] at h1
  · rintro ⟨p, m, instance_id, rest, rfl, hc⟩
    constructor
    · simp [Object.is_ship]
    · rw [List.countP_cons]
      simp [Object.is_ship, hc]

/-- Folding a step that only ever appends non-Ship entities onto the
collection keeps the original prefix and adds no Ship. -/
theorem foldl_append_nonships
    (f : List Object × InstanceTable → ℕ → List Object × InstanceTable)
    (hf : ∀ (acc : List Object × InstanceTable) (i : ℕ),
      ∃ extra : List Object, (f acc i).1 = acc.1 ++ extra ∧
        extra.countP Object.is_ship = 0) :
    ∀ (idxs : List ℕ) (objects : List Object) (t : InstanceTable),
      ∃ rest2 : List Object, (idxs.foldl f (objects, t)).1 = objects ++ rest2 ∧
        rest2.countP Object.is_ship = 0 := by
  intro idxs
  induction idxs with
  | nil => intro objects t; exact ⟨[], by simp, rfl⟩
  | cons i idxs ih =>
      intro objects t
      obtain ⟨extra, hex, hexc⟩ := hf (objects, t) i
      cases hfi : f (objects, t) i with
      | mk l1 t1 =>
          rw [hfi] at hex
          simp only at hex
          obtain ⟨rest2, hr, hrc⟩ := ih l1 t1
          refine ⟨extra ++ rest2, ?_, ?_⟩
          · rw [List.foldl_cons, hfi, hr, hex, List.append_assoc]
          · rw [List.countP_append, hexc, hrc]

/-- The spawn fold only appends entities (never a Ship). -/
theorem spawn_obstacles_objects (supply : ℕ → ObstacleParams) (n : ℕ)
    (objects : List Object) (t : InstanceTable) :
    ∃ rest2 : List Object,
      (spawn_obstacles supply objects t n).1 = objects ++ rest2 ∧
      rest2.countP Object.is_ship = 0 := by
  unfold spawn_obstacles
  exact foldl_append_nonships _
    (fun acc i => ⟨_, rfl, by simp [obstacle_from_params, Object.is_ship]⟩)
    (List.range n) objects t

/-- The initial setup always yields a Ship-headed, one-Ship collection. -/
theorem init_objects_ship_first (supply : ℕ → ObstacleParams) (t : InstanceTable) :
    ship_first (init_objects supply t).1 := by
  show ship_first (spawn_obstacles supply
    [Object.Ship (0, 0) (0, 0) (t.insert_new_instance .Ship ObjectInstancePod.zeroed).1]
    (t.insert_new_instance .Ship ObjectInstancePod.zeroed).2 5).1
  obtain ⟨rest2, he, hc⟩ := spawn_obstacles_objects supply 5
    [Object.Ship (0, 0) (0, 0) (t.insert_new_instance .Ship ObjectInstancePod.zeroed).1]
    (t.insert_new_instance .Ship ObjectInstancePod.zeroed).2
  rw [ship_first_iff]
  exact ⟨(0, 0), (0, 0), (t.insert_new_instance .Ship ObjectInstancePod.zeroed).1,
    rest2, by rw [he]; rfl, hc⟩

/-- The shot-spawning fold only appends entities (never a Ship). -/
theorem fire_fold_objects (o : Oracle) (cursor sp dir dl : Vec2) (n : ℕ)
    (objects : List Object) (t : InstanceTable) :
    ∃ rest2 : List Object,
      ((List.range n).foldl (fire_one o cursor sp dir dl) (objects, t)).1
        = objects ++ rest2 ∧
      rest2.countP Object.is_ship = 0 :=
  foldl_append_nonships _
    (fun acc i => ⟨_, rfl, by simp [fire_one, Object.is_ship]⟩)
    (List.range n) objects t

/-- Whatever `firing` does, the prior entities are a prefix of the result
and no Ship is added. -/
theorem firing_objects (o : Oracle) (st1 st2 : GameState)
    (h : firing o st1 = some st2) :
    ∃ rest2 : List Object, st2.objects = st1.objects ++ rest2 ∧
      rest2.countP Object.is_ship = 0 := by
  cases hhd : st1.objects.head? with
  | none =>
      simp only [firing, hhd] at h
      split_ifs at h <;>
        first
          | exact Option.noConfusion h
          | (have heq2 := Option.some.inj h; subst heq2; exact ⟨[], by simp, rfl⟩)
  | some ob =>
      cases ob with
      | Ship p m instance_id =>
          simp only [firing, hhd] at h
          split_ifs at h <;>
            first
              | (have heq2 := Option.some.inj h; subst heq2;
                 exact fire_fold_objects o st1.cursor_position p _ _ 2 st1.objects
                   st1.instance_table)
              | (have heq2 := Option.some.inj h; subst heq2; exact ⟨[], by simp, rfl⟩)
      | Shot p a instance_id =>
          simp only [firing, hhd] at h
          split_ifs at h <;>
            first
              | exact Option.noConfusion h
              | (have heq2 := Option.some.inj h; subst heq2; exact ⟨[], by simp, rfl⟩)
      | Obstacle p m a r s l instance_id =>
          simp only [firing, hhd] at h
          split_ifs at h <;>
            first
              | exact Option.noConfusion h
              | (have heq2 := Option.some.inj h; subst heq2; exact ⟨[], by simp, rfl⟩)

/-- With the Ship at the head, `firing` cannot abort, and the invariant is
kept. -/
theorem firing_ship_first (o : Oracle) (st1 : GameState)
    (h : ship_first st1.objects) :
    ∃ st2 : GameState, firing o st1 = some st2 ∧ ship_first st2.objects := by
  obtain ⟨p, m, instance_id, rest, hobjs, hcrest⟩ := (ship_first_iff _).mp h
  have hhd : st1.objects.head? = some (.Ship p m instance_id) := by rw [hobjs]; rfl
  have hex : ∃ st2 : GameState, firing o st1 = some st2 := by
    cases hf : firing o st1 with
    | some st2 => exact ⟨st2, rfl⟩
    | none =>
        exfalso
        simp only [firing, hhd] at hf
        split_ifs at hf
  obtain ⟨st2, h2⟩ := hex
  obtain ⟨rest2, he, hc⟩ := firing_objects o st1 st2 h2
  refine ⟨st2, h2, (ship_first_iff _).mpr ⟨p, m, instance_id, rest ++ rest2, ?_, ?_⟩⟩
  · rw [he, hobjs, List.cons_append]
  · rw [List.countP_append, hcrest, hc]

/-- Two kind-pointwise-equal collections agree on their ship-counts. -/
theorem countP_is_ship_eq_of_kinds :
    ∀ (l1 l2 : List Object),
      (∀ j : ℕ, l1[j]?.map Object.kind = l2[j]?.map Object.kind) →
      l1.countP Object.is_ship = l2.countP Object.is_ship := by
  intro l1
  induction l1 with
  | nil =>
      intro l2 hk
      cases l2 with
      | nil => rfl
      | cons b l2' => have := hk 0; simp at this
  | cons a l1' ih =>
      intro l2 hk
      cases l2 with
      | nil => have := hk 0; simp at this
      | cons b l2' =>
          have h0 := hk 0
          simp only [List.getElem?_cons_zero, Option.map_some'] at h0
          have hk' : ∀ j : ℕ, l1'[j]?.map Object.kind = l2'[j]?.map Object.kind := by
            intro j
            have := hk (j + 1)
            simpa [List.getElem?_cons_succ] using this
          have hab := (is_flag_eq_of_kind_eq (Option.some.inj h0)).1
          rw [List.countP_cons, List.countP_cons, hab, ih l2' hk']

/-- Kind-pointwise equality transports the Ship-first invariant. -/
theorem ship_first_of_kinds {l1 l2 : List Object}
    (hk : ∀ j : ℕ, l1[j]?.map Object.kind = l2[j]?.map Object.kind)
    (h : ship_first l2) : ship_first l1 := by
  refine ⟨?_, by rw [countP_is_ship_eq_of_kinds l1 l2 hk]; exact h.2⟩
  obtain ⟨p, m, instance_id, rest, rfl, _⟩ := (ship_first_iff _).mp h
  have h0 := hk 0
  simp only [List.getElem?_cons_zero, Option.map_some'] at h0
  obtain ⟨ob, hob, hkind⟩ := getElem?_kind_eq h0
  cases l1 with
  | nil => simp at hob
  | cons a l1' =>
      simp only [List.getElem?_cons_zero] at hob
      have := Option.some.inj hob
      subst this
      have h2 := (is_flag_eq_of_kind_eq hkind).1
      simp only [List.head?_cons, Option.any_some]
      rw [h2]
      rfl

/-- Filtering out marked indices never increases the ship-count. -/
theorem countP_survivorsAux_le (dead : List ℕ) :
    ∀ (objects : List Object) (off : ℕ),
      (survivorsAux dead off objects).countP Object.is_ship
        ≤ objects.countP Object.is_ship := by
  intro objects
  induction objects with
  | nil => intro off; exact Nat.le_refl _
  | cons ob rest ih =>
      intro off
      simp only [survivorsAux]
      split_ifs
      · refine Nat.le_trans (ih (off + 1)) ?_
        rw [List.countP_cons]
        exact Nat.le_add_right _ _
      · rw [List.countP_cons, List.countP_cons]
        exact Nat.add_le_add_right (ih (off + 1)) _

/-- If index 0 is not marked dead, the survivors keep the invariant. -/
theorem ship_first_survivors {objects : List Object} {dead : List ℕ}
    (h : ship_first objects) (h0 : 0 ∉ dead) :
    ship_first (survivors objects dead) := by
  obtain ⟨p, m, instance_id, rest, rfl, hc⟩ := (ship_first_iff _).mp h
  rw [survivors]
  simp only [survivorsAux]
  rw [if_neg h0]
  refine (ship_first_iff _).mpr ⟨p, m, instance_id, _, rfl, ?_⟩
  have hle := countP_survivorsAux_le dead rest 1
  rw [hc] at hle
  exact Nat.le_zero.mp hle

/-- A full frame never aborts when the Ship leads, and afterwards the Ship
still leads: ship control and firing keep the head, the collision pass never
marks index 0 dead (Ship deaths are a game-over flag instead), removal keeps
survivor order, and spawning only appends Obstacles. -/
theorem advance_frame_ship_first (o : Oracle) (supply : ℕ → ObstacleParams)
    (st : GameState) (h : ship_first st.objects) :
    ∃ st' : GameState, advance_frame o supply st = some st' ∧
      ship_first st'.objects := by
  by_cases hgo : st.game_over = true
  · exact ⟨st, by unfold advance_frame; rw [if_pos hgo], h⟩
  · obtain ⟨p1, m1, id1, rest1, hobjs1, hcrest1⟩ := (ship_first_iff _).mp h
    have h1eq : ship_control o st = some { st with
      objects := (.Ship p1
        (addv m1 (o.homingForce (subv st.cursor_position p1))) id1 :: rest1) } := by
      unfold ship_control
      rw [hobjs1]
    have hsf1 : ship_first ({ st with
        objects := (.Ship p1
          (addv m1 (o.homingForce (subv st.cursor_position p1))) id1 :: rest1) }
          : GameState).objects :=
      (ship_first_iff _).mpr ⟨p1, _, id1, rest1, rfl, hcrest1⟩
    obtain ⟨st2, h2eq, hsf2⟩ := firing_ship_first o _ hsf1
    obtain ⟨ls, hloop, hlen, hkinds, _, hsorted, hbound, hnonship⟩ :=
      object_loop_spec o st2.objects st2.game_over st2.score
    have hsfls : ship_first ls.objects := ship_first_of_kinds hkinds hsf2
    obtain ⟨p2, m2, id2, rest2, hobjs2, _⟩ := (ship_first_iff _).mp hsf2
    have h0 : 0 ∉ ls.dead_object_indices := by
      intro hmem
      have := hnonship 0 hmem
      rw [hobjs2] at this
      simp [Object.is_ship] at this
    have hbound' : ∀ i ∈ ls.dead_object_indices, i < ls.objects.length := by
      intro i hi
      rw [hlen]
      exact hbound i hi
    obtain ⟨hsurv, _, _⟩ := removeDead_spec ls.dead_object_indices ls.objects
      st2.instance_table hsorted hbound'
    have hsfr : ship_first
        (removeDead ls.objects st2.instance_table ls.dead_object_indices).1 := by
      rw [hsurv]
      exact ship_first_survivors hsfls h0
    refine ⟨{ st2 with
      objects := (if ls.spawn_event then spawn_obstacles supply
          (removeDead ls.objects st2.instance_table ls.dead_object_indices).1
          (removeDead ls.objects st2.instance_table ls.dead_object_indices).2 2
        else removeDead ls.objects st2.instance_table ls.dead_object_indices).1,
      instance_table := (if ls.spawn_event then spawn_obstacles supply
          (removeDead ls.objects st2.instance_table ls.dead_object_indices).1
          (removeDead ls.objects st2.instance_table ls.dead_object_indices).2 2
        else removeDead ls.objects st2.instance_table ls.dead_object_indices).2,
      game_over := ls.game_over,
      score := ls.score }, ?_, ?_⟩
    · unfold advance_frame
      rw [if_neg hgo, h1eq, Option.some_bind, h2eq, Option.some_bind, hloop,
        Option.some_bind]
    · show ship_first (if ls.spawn_event then spawn_obstacles supply
          (removeDead ls.objects st2.instance_table ls.dead_object_indices).1
          (removeDead ls.objects st2.instance_table ls.dead_object_indices).2 2
        else removeDead ls.objects st2.instance_table ls.dead_object_indices).1
      by_cases hsp : ls.spawn_event = true
      · rw [if_pos hsp]
        obtain ⟨ps, ms, ids, rests, hobjss, hcrests⟩ := (ship_first_iff _).mp hsfr
        obtain ⟨restsp, he, hcsp⟩ := spawn_obstacles_objects supply 2
          (removeDead ls.objects st2.instance_table ls.dead_object_indices).1
          (removeDead ls.objects st2.instance_table ls.dead_object_indices).2
        refine (ship_first_iff _).mpr ⟨ps, ms, ids, rests ++ restsp, ?_, ?_⟩
        · rw [he, hobjss, List.cons_append]
        · rw [List.countP_append, hcrests, hcsp]
      · rw [if_neg hsp]
        exact hsfr

/-- Claim C10: the entity collection always has the Ship first (index 0) and
contains exactly one Ship.  The invariant holds at startup, the
index-0 `get_mut(0).unwrap()` ship read always succeeds under it, and every
event handler both succeeds (the panic arms are unreachable) and preserves
it: Ship-Obstacle contact sets game over rather than marking the Ship dead,
removals keep survivor order, restart re-creates the Ship first, and firing
and spawning only append non-Ship entities. -/
theorem C10_ship_always_first (o : Oracle) (supply : ℕ → ObstacleParams) :
    ship_first (initial_state supply).objects ∧
    (∀ st : GameState, ship_first st.objects →
      ∃ st1 : GameState, ship_control o st = some st1 ∧ ship_first st1.objects) ∧
    (∀ (st : GameState) (ev : GEvent), ship_first st.objects →
      ∃ st' : GameState, handle_event o supply st ev = some st' ∧
        ship_first st'.objects) := by
  refine ⟨init_objects_ship_first supply initial_instance_table, ?_, ?_⟩
  · intro st h
    obtain ⟨p, m, instance_id, rest, hobjs, hcrest⟩ := (ship_first_iff _).mp h
    refine ⟨{ st with
      objects := (.Ship p
        (addv m (o.homingForce (subv st.cursor_position p))) instance_id :: rest) },
      ?_, (ship_first_iff _).mpr ⟨p, _, instance_id, rest, rfl, hcrest⟩⟩
    unfold ship_control
    rw [hobjs]
  · intro st ev h
    cases ev with
    | cursorMoved p => exact ⟨{ st with cursor_position := p }, rfl, h⟩
    | rightMousePressed =>
        by_cases hgo : st.game_over = true
        · exact ⟨st, by simp only [handle_event]; rw [if_pos hgo], h⟩
        · obtain ⟨p, m, instance_id, rest, hobjs, hcrest⟩ := (ship_first_iff _).mp h
          refine ⟨{ st with
            objects := (.Ship p
              (addv m (smul 0.003
                (o.cosq (o.atan2q (subv st.cursor_position p).2
                  (subv st.cursor_position p).1),
                 o.sinq (o.atan2q (subv st.cursor_position p).2
                  (subv st.cursor_position p).1))))
              instance_id :: rest) },
            ?_, (ship_first_iff _).mpr ⟨p, _, instance_id, rest, rfl, hcrest⟩⟩
          simp only [handle_event]
          rw [if_neg hgo, hobjs]
    | leftMouse pressed =>
        by_cases hgo : st.game_over = false
        · exact ⟨{ st with shooting := pressed },
            by simp only [handle_event]; rw [if_pos hgo], h⟩
        · by_cases hp : pressed = true
          · refine ⟨restart supply st,
              by simp only [handle_event]; rw [if_neg hgo, if_pos hp], ?_⟩
            exact init_objects_ship_first supply _
          · exact ⟨st,
              by simp only [handle_event]; rw [if_neg hgo, if_neg hp], h⟩
    | mainEventsCleared =>
        obtain ⟨stf, hadv, hsf⟩ := advance_frame_ship_first o supply st h
        refine ⟨instance_refresh o stf, ?_, hsf⟩
        show (advance_frame o supply st).map (instance_refresh o) = _
        rw [hadv]
        rfl

/-! ### C3: game over freezes the world until a restart request -/

/-- Liberating marks survive further removals along `free_all_objects`. -/
theorem unusedAt_free_all_mono (K : InstanceID) :
    ∀ (objs : List Object) (t : InstanceTable),
      unusedAt t K = true → unusedAt (free_all_objects objs t) K = true := by
  intro objs
  induction objs with
  | nil => intro t h; exact h
  | cons ob rest ih =>
      intro t h
      show unusedAt (free_all_objects rest (t.remove_instance ob.instance_id)) K = true
      exact ih _ (unusedAt_remove_mono t ob.instance_id K h)

/-- `free_all_objects` keeps every free-bitmap length. -/
theorem free_all_preserves_unused_length :
    ∀ (objs : List Object) (t : InstanceTable) (m : WhichMesh),
      ((free_all_objects objs t).get m).unused_instances.length =
        (t.get m).unused_instances.length := by
  intro objs
  induction objs with
  | nil => intro t m; rfl
  | cons ob rest ih =>
      intro t m
      show ((free_all_objects rest (t.remove_instance ob.instance_id)).get
        m).unused_instances.length = _
      rw [ih, remove_preserves_unused_length]

/-- After `free_all_objects`, every listed entity's (in-bounds) slot is
marked free. -/
theorem free_all_objects_frees :
    ∀ (objs : List Object) (t : InstanceTable) (obj : Object), obj ∈ objs →
      obj.instance_id.instance_index <
        (t.get obj.instance_id.mesh).unused_instances.length →
      unusedAt (free_all_objects objs t) obj.instance_id = true := by
  intro objs
  induction objs with
  | nil => intro t obj h; simp at h
  | cons ob rest ih =>
      intro t obj hmem hlt
      rcases List.mem_cons.mp hmem with heq | hmem2
      · subst heq
        show unusedAt (free_all_objects rest
          (t.remove_instance obj.instance_id)) obj.instance_id = true
        exact unusedAt_free_all_mono obj.instance_id rest _
          (unusedAt_remove_self t obj.instance_id hlt)
      · show unusedAt (free_all_objects rest
          (t.remove_instance ob.instance_id)) obj.instance_id = true
        refine ih _ obj hmem2 ?_
        rw [remove_preserves_unused_length]
        exact hlt

/-- Folding a step that appends exactly one Obstacle per index. -/
theorem foldl_append_shape
    (f : List Object × InstanceTable → ℕ → List Object × InstanceTable)
    (g : List Object × InstanceTable → ℕ → Object)
    (hf : ∀ (acc : List Object × InstanceTable) (i : ℕ),
      (f acc i).1 = acc.1 ++ [g acc i])
    (hg : ∀ (acc : List Object × InstanceTable) (i : ℕ),
      (g acc i).is_obstacle = true) :
    ∀ (idxs : List ℕ) (objects : List Object) (t : InstanceTable),
      ∃ extra : List Object, (idxs.foldl f (objects, t)).1 = objects ++ extra ∧
        extra.length = idxs.length ∧ ∀ ob ∈ extra, ob.is_obstacle = true := by
  intro idxs
  induction idxs with
  | nil => intro objects t; exact ⟨[], by simp, rfl, by simp⟩
  | cons i idxs ih =>
      intro objects t
      cases hfi : f (objects, t) i with
      | mk l1 t1 =>
          have hex : l1 = objects ++ [g (objects, t) i] := by
            have := hf (objects, t) i
            rw [hfi] at this
            exact this
          obtain ⟨extra, he, hlen, hobs⟩ := ih l1 t1
          refine ⟨g (objects, t) i :: extra, ?_, ?_, ?_⟩
          · rw [List.foldl_cons, hfi, he, hex, List.append_assoc]
            rfl
          · simp [hlen]
          · intro ob hob
            rcases List.mem_cons.mp hob with hh | hh
            · rw [hh]
              exact hg _ _
            · exact hobs ob hh

/-- The spawn fold appends exactly `n` Obstacles after the prior entities. -/
theorem spawn_obstacles_shape (supply : ℕ → ObstacleParams) (n : ℕ)
    (objects : List Object) (t : InstanceTable) :
    ∃ extra : List Object,
      (spawn_obstacles supply objects t n).1 = objects ++ extra ∧
      extra.length = n ∧ ∀ ob ∈ extra, ob.is_obstacle = true := by
  unfold spawn_obstacles
  obtain ⟨extra, he, hlen, hobs⟩ := foldl_append_shape
    (fun acc i =>
      (acc.1 ++ [obstacle_from_params (supply i)
        ((acc.2.insert_new_instance .Obstacle ObjectInstancePod.zeroed).1)],
       (acc.2.insert_new_instance .Obstacle ObjectInstancePod.zeroed).2))
    (fun acc i => obstacle_from_params (supply i)
      ((acc.2.insert_new_instance .Obstacle ObjectInstancePod.zeroed).1))
    (fun acc i => rfl) (fun acc i => rfl) (List.range n) objects t
  exact ⟨extra, he, by rw [hlen, List.length_range], hobs⟩

/-- Claim C3: while the game-over flag is set, every non-restart event (and
any stream of them) leaves the entity collection exactly as it was (no
mutation, creation, or destruction) with the flag still set; a restart
request (left click while game over) frees every existing entity's
(in-bounds) slot, resets the score to 0, clears the flag, and replaces the
collection by the initial setup: one Ship at the field center with zero
velocity followed by exactly 5 Obstacles. -/
theorem C3_game_over_freeze_and_restart (o : Oracle) (supply : ℕ → ObstacleParams) :
    (∀ (st : GameState) (ev : GEvent), st.game_over = true →
      ev.isRestartReq = false →
      ∃ st' : GameState, handle_event o supply st ev = some st' ∧
        st'.objects = st.objects ∧ st'.game_over = true) ∧
    (∀ (evs : List GEvent) (st : GameState), st.game_over = true →
      (∀ ev ∈ evs, ev.isRestartReq = false) →
      ∃ st' : GameState, handle_events o supply st evs = some st' ∧
        st'.objects = st.objects ∧ st'.game_over = true) ∧
    (∀ st : GameState, st.game_over = true →
      handle_event o supply st (GEvent.leftMouse true) = some (restart supply st) ∧
      (restart supply st).score = 0 ∧
      (restart supply st).game_over = false ∧
      (∀ obj ∈ st.objects,
        obj.instance_id.instance_index <
          (st.instance_table.get obj.instance_id.mesh).unused_instances.length →
        unusedAt (free_all_objects st.objects st.instance_table)
          obj.instance_id = true) ∧
      (∃ rest2 : List Object,
        (restart supply st).objects =
          Object.Ship (0, 0) (0, 0)
            (((free_all_objects st.objects st.instance_table).insert_new_instance
              .Ship ObjectInstancePod.zeroed).1) :: rest2 ∧
        rest2.length = 5 ∧ ∀ ob ∈ rest2, ob.is_obstacle = true)) := by
  have hev : ∀ (st : GameState) (ev : GEvent), st.game_over = true →
      ev.isRestartReq = false →
      ∃ st' : GameState, handle_event o supply st ev = some st' ∧
        st'.objects = st.objects ∧ st'.game_over = true := by
    intro st ev hgo hreq
    cases ev with
    | cursorMoved p => exact ⟨{ st with cursor_position := p }, rfl, rfl, hgo⟩
    | rightMousePressed =>
        exact ⟨st, by simp only [handle_event]; rw [if_pos hgo], rfl, hgo⟩
    | leftMouse pressed =>
        cases pressed with
        | false =>
            refine ⟨st, ?_, rfl, hgo⟩
            simp only [handle_event]
            rw [if_neg (by simp [hgo]), if_neg (fun hc => Bool.noConfusion hc)]
        | true => simp [GEvent.isRestartReq] at hreq
    | mainEventsCleared =>
        refine ⟨instance_refresh o st, ?_, rfl, hgo⟩
        show (advance_frame o supply st).map (instance_refresh o) = _
        rw [show advance_frame o supply st = some st from by
          unfold advance_frame; rw [if_pos hgo]]
        rfl
  refine ⟨hev, ?_, ?_⟩
  · intro evs
    induction evs with
    | nil => intro st hgo _; exact ⟨st, rfl, rfl, hgo⟩
    | cons ev evs ih =>
        intro st hgo hall
        obtain ⟨st1, h1, hobj1, hgo1⟩ := hev st ev hgo (hall ev (by simp))
        obtain ⟨st', h', hobj', hgo'⟩ := ih st1 hgo1 (fun e he => hall e (by simp [he]))
        refine ⟨st', ?_, by rw [hobj', hobj1], hgo'⟩
        show List.foldl _ (some st) (ev :: evs) = some st'
        rw [List.foldl_cons, Option.some_bind, h1]
        exact h'
  · intro st hgo
    refine ⟨?_, rfl, rfl, ?_, ?_⟩
    · simp only [handle_event, hgo]
      rw [if_neg (fun hc => Bool.noConfusion hc), if_pos trivial]
    · intro obj hmem hlt
      exact free_all_objects_frees st.objects st.instance_table obj hmem hlt
    · obtain ⟨extra, he, hlen, hobs⟩ := spawn_obstacles_shape supply 5
        [Object.Ship (0, 0) (0, 0)
          (((free_all_objects st.objects st.instance_table).insert_new_instance
            .Ship ObjectInstancePod.zeroed).1)]
        ((free_all_objects st.objects st.instance_table).insert_new_instance
          .Ship ObjectInstancePod.zeroed).2
      refine ⟨extra, ?_, hlen, hobs⟩
      show (spawn_obstacles supply
        [Object.Ship (0, 0) (0, 0)
          (((free_all_objects st.objects st.instance_table).insert_new_instance
            .Ship ObjectInstancePod.zeroed).1)]
        ((free_all_objects st.objects st.instance_table).insert_new_instance
          .Ship ObjectInstancePod.zeroed).2 5).1 = _
      rw [he]
      rfl

/-- A concrete game-over state for instantiating the C3 theorem. -/
def over0 : GameState := { initial_state supply0 with game_over := true }

/-- Witness instantiating the C3 theorem: in a concrete game-over state, a
right-click (not a restart request) leaves the entities untouched and the
flag set. -/
theorem C3_game_over_freeze_and_restart_witness :
    over0.game_over = true ∧ GEvent.rightMousePressed.isRestartReq = false ∧
    ∃ st' : GameState,
      handle_event oracle0 supply0 over0 GEvent.rightMousePressed = some st' ∧
      st'.objects = over0.objects ∧ st'.game_over = true := by
  refine ⟨rfl, rfl, ?_⟩
  exact (C3_game_over_freeze_and_restart oracle0 supply0).1 over0
    GEvent.rightMousePressed rfl rfl

/-- Witness instantiating the C10 theorem: the invariant holds in the initial
state, and one full frame from there succeeds keeping it. -/
theorem C10_ship_always_first_witness :
    ship_first (initial_state supply0).objects ∧
    ∃ st' : GameState, handle_event oracle0 supply0 (initial_state supply0)
        GEvent.mainEventsCleared = some st' ∧ ship_first st'.objects := by
  have h := C10_ship_always_first oracle0 supply0
  exact ⟨h.1, h.2.2 (initial_state supply0) GEvent.mainEventsCleared h.1⟩

/-- Witness instantiating the C8 theorem: moving the cursor in the initial
state leaves the score unchanged, hence not decreased. -/
theorem C8_score_monotonic_witness :
    ∃ st', handle_event oracle0 supply0 (initial_state supply0)
        (GEvent.cursorMoved (0, 0)) = some st' ∧
      ((initial_state supply0).score ≤ st'.score ∨
        ((initial_state supply0).game_over = true ∧
          GEvent.cursorMoved (0, 0) = GEvent.leftMouse true ∧ st'.score = 0)) := by
  refine ⟨_, rfl, ?_⟩
  exact (C8_score_monotonic oracle0 supply0).1 _ _ _ rfl

end Gravinyon
